import Mathlib

/-!
Verification of the voxel city-builder core: a shallow embedding of the
chunk data structure, its linear indexing scheme, the terrain generator,
the face-visibility culling pass, the ambient-occlusion pass, the mesh
builder, and the world streaming manager, together with theorems settling
the specification claims.

Modelling conventions:
* Rust `u32` values are `Nat` reduced modulo `2^32` where wrapping can
  occur; `i32` values are `Int` (all arithmetic in scope stays far inside
  the `i32` range, noted where relevant).
* Rust `f32`/`f64` values appearing in the ambient-occlusion factors,
  mesh coordinates and colors are modelled as exact rationals; every
  float computed by the embedded code is a small dyadic/ternary rational
  obtained from 0/1 occupancies, so the formulas are preserved exactly.
* The external `noise` crate (a pure deterministic field) is modelled as
  an arbitrary function from the integer lattice point it is sampled at.
* A Rust `Vec` of the fixed length 64³ holding the voxel records is
  modelled as an index function `Nat → ChunkBlockInfo` together with the
  explicit length `chunkCount`; the panicking `Vec` index operation of
  the six trait accessors is modelled by `Option`-returning functions
  (`none` = index out of bounds, i.e. the program aborts).
-/

namespace CityBuilder

/-- The constant `2^32`, the modulus of Rust `u32` arithmetic. -/
def u32Mod : Nat := 4294967296

/-- Rust/glam `UVec3`: a triple of `u32` coordinates. -/
structure UVec3 where
  x : Nat
  y : Nat
  z : Nat
deriving DecidableEq

/-- Rust/glam `IVec3`: a triple of `i32` coordinates. -/
structure IVec3 where
  x : Int
  y : Int
  z : Int
deriving DecidableEq

instance : Add IVec3 := ⟨fun a b => ⟨a.x + b.x, a.y + b.y, a.z + b.z⟩⟩

instance : Sub IVec3 := ⟨fun a b => ⟨a.x - b.x, a.y - b.y, a.z - b.z⟩⟩

/-- Model of `UVec3::as_ivec3`: each `u32` component reinterpreted as `i32`
(the components in scope are < 64, far below the wrap point). -/
def UVec3.asIVec3 (p : UVec3) : IVec3 := ⟨p.x, p.y, p.z⟩

/-- Model of `IVec3::as_uvec3`: each `i32` component cast to `u32`,
wrapping modulo `2^32`. -/
def IVec3.asUVec3 (p : IVec3) : UVec3 :=
  ⟨(p.x % (u32Mod : Int)).toNat, (p.y % (u32Mod : Int)).toNat,
   (p.z % (u32Mod : Int)).toNat⟩

/-- The `Block` enum. -/
inductive Block where
  | Void
  | Air
  | Stone
  | Grass
deriving DecidableEq

/-- A `glam::Vec4` whose components we model as exact rationals. -/
structure Vec4Q where
  x : ℚ
  y : ℚ
  z : ℚ
  w : ℚ
deriving DecidableEq

/-- Model of `Block::color`. -/
def Block.color : Block → Vec4Q
  | Block.Void => ⟨1, 0, 1, 1⟩
  | Block.Stone => ⟨4/10, 4/10, 4/10, 1⟩
  | Block.Grass => ⟨0, 6/10, 9/100, 1⟩
  | Block.Air => ⟨0, 0, 0, 0⟩

/-- One voxel record: block kind, 6-bit face-visibility mask
(`Direction` bitflags, bit k of the `Nat`), per-face AO quad. -/
structure ChunkBlockInfo where
  block : Block
  cull_faces : Nat
  ao : Fin 6 → Vec4Q

/-- Number of voxel records in a chunk: the `Vec` built by
`vec![...; 64 * 64 * 64]` always has this length. -/
def chunkCount : Nat := 64 * 64 * 64

/-- The chunk store: `Vec<ChunkBlockInfo>` of fixed length `chunkCount`,
modelled as its index function. -/
structure Chunk where
  data : Nat → ChunkBlockInfo

/-- The record every chunk is initialised with:
`{ block: Void, cull_faces: empty, ao: [Vec4::default(); 6] }`. -/
def voidInfo : ChunkBlockInfo :=
  ⟨Block.Void, 0, fun _ => ⟨0, 0, 0, 0⟩⟩

/-- Model of `Chunk::new` (`Structure::new` for `Chunk`). -/
def Chunk.new : Chunk := ⟨fun _ => voidInfo⟩

/-- Model of `Structure::linearize` at the chunk size (64,64,64):
`((z * sy + y) * sx + x)` computed in `u32` arithmetic.  The single
outer reduction modulo `2^32` equals the step-by-step wrapping of each
`u32` multiplication and addition. -/
def linearize (position : UVec3) : Nat :=
  ((position.z * 64 + position.y) * 64 + position.x) % u32Mod

/-- Model of `Structure::delinearize` at the chunk size (64,64,64):
`idx = index as u32; z = idx / (sx*sy); idx -= z*sx*sy; y = idx / sx;
x = idx % sx`. -/
def delinearize (index : Nat) : UVec3 :=
  let idx0 := index % u32Mod
  let z := idx0 / (64 * 64)
  let idx1 := idx0 - z * (64 * 64)
  let y := idx1 / 64
  let x := idx1 % 64
  ⟨x, y, z⟩

/-- A position is inside the 64×64×64 chunk bounds. -/
def inBounds (p : UVec3) : Prop := p.x < 64 ∧ p.y < 64 ∧ p.z < 64

instance (p : UVec3) : Decidable (inBounds p) := by
  unfold inBounds; infer_instance

/-! Total accessors: the underlying `self.data[index]` record read/write
for an index that is in range (the passes below only access in-range
indices, where the `Vec` index operation cannot fail). -/

/-- Read the record of the voxel at `position` (total version). -/
def Chunk.infoAt (c : Chunk) (p : UVec3) : ChunkBlockInfo :=
  c.data (linearize p)

/-- Block at `position` (total version of `get_block`). -/
def Chunk.blockAt (c : Chunk) (p : UVec3) : Block :=
  (c.data (linearize p)).block

/-- Face-visibility mask at `position` (total version of `get_cull`). -/
def Chunk.cullAt (c : Chunk) (p : UVec3) : Nat :=
  (c.data (linearize p)).cull_faces

/-- AO data at `position` (total version of `get_ao`). -/
def Chunk.aoAt (c : Chunk) (p : UVec3) : Fin 6 → Vec4Q :=
  (c.data (linearize p)).ao

/-- Write the block at `position` (total version of `set_block`). -/
def Chunk.setBlockAt (c : Chunk) (p : UVec3) (b : Block) : Chunk :=
  ⟨fun i => if i = linearize p then
      ⟨b, (c.data i).cull_faces, (c.data i).ao⟩
    else c.data i⟩

/-- Write the face mask at `position` (total version of `set_cull`). -/
def Chunk.setCullAt (c : Chunk) (p : UVec3) (m : Nat) : Chunk :=
  ⟨fun i => if i = linearize p then
      ⟨(c.data i).block, m, (c.data i).ao⟩
    else c.data i⟩

/-- Write the AO data at `position` (total version of `set_ao`). -/
def Chunk.setAoAt (c : Chunk) (p : UVec3) (a : Fin 6 → Vec4Q) : Chunk :=
  ⟨fun i => if i = linearize p then
      ⟨(c.data i).block, (c.data i).cull_faces, a⟩
    else c.data i⟩

/-! The six `Structure` trait accessors as implemented by `Chunk`:
`let index = self.linearize(position); self.data[index]...` — the `Vec`
index aborts (models as `none`) when `index ≥ chunkCount`. -/

/-- Model of `Chunk::get_block`. -/
def Chunk.get_block (c : Chunk) (p : UVec3) : Option Block :=
  if linearize p < chunkCount then some (c.blockAt p) else none

/-- Model of `Chunk::set_block`. -/
def Chunk.set_block (c : Chunk) (p : UVec3) (b : Block) : Option Chunk :=
  if linearize p < chunkCount then some (c.setBlockAt p b) else none

/-- Model of `Chunk::get_cull`. -/
def Chunk.get_cull (c : Chunk) (p : UVec3) : Option Nat :=
  if linearize p < chunkCount then some (c.cullAt p) else none

/-- Model of `Chunk::set_cull`. -/
def Chunk.set_cull (c : Chunk) (p : UVec3) (m : Nat) : Option Chunk :=
  if linearize p < chunkCount then some (c.setCullAt p m) else none

/-- Model of `Chunk::get_ao`. -/
def Chunk.get_ao (c : Chunk) (p : UVec3) : Option (Fin 6 → Vec4Q) :=
  if linearize p < chunkCount then some (c.aoAt p) else none

/-- Model of `Chunk::set_ao`. -/
def Chunk.set_ao (c : Chunk) (p : UVec3) (a : Fin 6 → Vec4Q) : Option Chunk :=
  if linearize p < chunkCount then some (c.setAoAt p a) else none

/-! ### Visibility culling pass -/

/-- The normal vector of face `k`, in the iteration order of the
culling/AO loops (`d` the axis 0,1,2; `n` first −1 then +1): bit 0 LEFT
(−x), bit 1 RIGHT (+x), bit 2 DOWN (−y), bit 3 UP (+y), bit 4 BACK (−z),
bit 5 FORWARD (+z) — matching the `Direction` bitflag values. -/
def dirNormal : Fin 6 → IVec3
  | 0 => ⟨-1, 0, 0⟩
  | 1 => ⟨1, 0, 0⟩
  | 2 => ⟨0, -1, 0⟩
  | 3 => ⟨0, 1, 0⟩
  | 4 => ⟨0, 0, -1⟩
  | 5 => ⟨0, 0, 1⟩

/-- One iteration of the direction loop in `internal_cull_faces`:
the bit contributed for face `k` of the voxel at `position`.
`let neighbor = (position.as_ivec3() + normal).as_uvec3();` then the
out-of-bounds `continue`, the (redundant) in-bounds re-check, and the
Air test — `sx = sy = sz = 64`. -/
def cullBitFor (s : Chunk) (position : UVec3) (k : Fin 6) : Nat :=
  let neighbor := (position.asIVec3 + dirNormal k).asUVec3
  if 64 ≤ neighbor.x ∨ 64 ≤ neighbor.y ∨ 64 ≤ neighbor.z then 0
  else if neighbor.x < 64 ∧ neighbor.y < 64 ∧ neighbor.z < 64 then
    if s.blockAt neighbor = Block.Air then 2 ^ (k : Nat) else 0
  else 0

/-- The full `directions` mask accumulated by the 3×2 direction loop of
`internal_cull_faces` for the voxel at `position` (`directions |=
current_direction` for each visible face). -/
def cullDirections (s : Chunk) (position : UVec3) : Nat :=
  cullBitFor s position 0 ||| cullBitFor s position 1 |||
  cullBitFor s position 2 ||| cullBitFor s position 3 |||
  cullBitFor s position 4 ||| cullBitFor s position 5

/-- Model of `internal_cull_faces`: for every `index in 0..count()`, compute the
mask for `position = delinearize(index)` from the (in-progress)
structure and `set_cull` it.  All written indices are in range, so the
total setter models the trait call exactly. -/
def internal_cull_faces (c : Chunk) : Chunk :=
  (List.range chunkCount).foldl
    (fun acc index =>
      acc.setCullAt (delinearize index) (cullDirections acc (delinearize index)))
    c

/-! ### Ambient-occlusion pass -/

/-- Component access of a `Vec4Q` by corner index (x, y, z, w). -/
def Vec4Q.comp (v : Vec4Q) : Fin 4 → ℚ
  | 0 => v.x
  | 1 => v.y
  | 2 => v.z
  | 3 => v.w

/-- Integer scalar multiple of an `IVec3`. -/
def IVec3.smul (n : Int) (v : IVec3) : IVec3 := ⟨n * v.x, n * v.y, n * v.z⟩

/-- The closure `voxel_present` of `voxel_ao`: occupancy sample as a
0/1 float, with the `i32 → u32` wrap-cast bounds check against
`sx = sy = sz = 64` (`!matches!(..., Block::Air) as i32 as f32`). -/
def voxel_present (s : Chunk) (pos : IVec3) : ℚ :=
  if 64 ≤ pos.asUVec3.x ∨ 64 ≤ pos.asUVec3.y ∨ 64 ≤ pos.asUVec3.z then 0
  else if s.blockAt pos.asUVec3 = Block.Air then 0 else 1

/-- The closure `vertex_ao`:
`(side.x + side.y + f32::max(corner, side.x * side.y)) / 3.0`. -/
def vertex_ao (a b corner : ℚ) : ℚ := (a + b + max corner (a * b)) / 3

/-- Model of `voxel_ao(structure, pos, d1, d2)`. -/
def voxel_ao (s : Chunk) (pos d1 d2 : IVec3) : Vec4Q :=
  let sideX := voxel_present s (pos + d1)
  let sideY := voxel_present s (pos + d2)
  let sideZ := voxel_present s (pos - d1)
  let sideW := voxel_present s (pos - d2)
  let cornerX := voxel_present s (pos + d1 + d2)
  let cornerY := voxel_present s (pos - d1 + d2)
  let cornerZ := voxel_present s (pos - d1 - d2)
  let cornerW := voxel_present s (pos + d1 - d2)
  ⟨1 - vertex_ao sideX sideY cornerX,
   1 - vertex_ao sideY sideZ cornerY,
   1 - vertex_ao sideZ sideW cornerZ,
   1 - vertex_ao sideW sideX cornerW⟩

/-- First tangent argument of the `voxel_ao` call for face `k`:
`IVec3 { x: normal.z.abs(), y: normal.x.abs(), z: normal.y.abs() }`. -/
def aoD1 (k : Fin 6) : IVec3 :=
  ⟨((dirNormal k).z.natAbs : Int), ((dirNormal k).x.natAbs : Int),
   ((dirNormal k).y.natAbs : Int)⟩

/-- Second tangent argument of the `voxel_ao` call for face `k`:
`IVec3 { x: normal.y.abs(), y: normal.z.abs(), z: normal.x.abs() }`. -/
def aoD2 (k : Fin 6) : IVec3 :=
  ⟨((dirNormal k).y.natAbs : Int), ((dirNormal k).z.natAbs : Int),
   ((dirNormal k).x.natAbs : Int)⟩

/-- The body of the per-voxel loop of `internal_ao`: read the current
`ao` array and overwrite entry `direction_index = trailing_zeros(bit) = k`
for each of the 6 faces in loop order. -/
def aoUpdateAt (s : Chunk) (p : UVec3) : Fin 6 → Vec4Q :=
  let a := s.aoAt p
  let a0 := Function.update a 0 (voxel_ao s (p.asIVec3 + dirNormal 0) (aoD1 0) (aoD2 0))
  let a1 := Function.update a0 1 (voxel_ao s (p.asIVec3 + dirNormal 1) (aoD1 1) (aoD2 1))
  let a2 := Function.update a1 2 (voxel_ao s (p.asIVec3 + dirNormal 2) (aoD1 2) (aoD2 2))
  let a3 := Function.update a2 3 (voxel_ao s (p.asIVec3 + dirNormal 3) (aoD1 3) (aoD2 3))
  let a4 := Function.update a3 4 (voxel_ao s (p.asIVec3 + dirNormal 4) (aoD1 4) (aoD2 4))
  Function.update a4 5 (voxel_ao s (p.asIVec3 + dirNormal 5) (aoD1 5) (aoD2 5))

/-- Model of `internal_ao`: for every index, recompute the whole per-face AO
array of `position = delinearize(index)` and `set_ao` it. -/
def internal_ao (c : Chunk) : Chunk :=
  (List.range chunkCount).foldl
    (fun acc index =>
      acc.setAoAt (delinearize index) (aoUpdateAt acc (delinearize index)))
    c

/-! Claim-language definitions for the AO formula (§4.5): 0/1 occupancy
with signed bounds, and the per-corner tangent sign pattern. -/

/-- Occupancy of a voxel position: 1 when the position is inside the
chunk bounds and its block is not Air, else 0 (out-of-bounds samples
count as unoccupied). -/
def occupancy (c : Chunk) (q : IVec3) : ℚ :=
  if 0 ≤ q.x ∧ q.x < 64 ∧ 0 ≤ q.y ∧ q.y < 64 ∧ 0 ≤ q.z ∧ q.z < 64 then
    if c.blockAt ⟨q.x.toNat, q.y.toNat, q.z.toNat⟩ = Block.Air then 0 else 1
  else 0

/-- Sign of the first tangent offset for corner `j` of a face
(corners in storage order x, y, z, w). -/
def cornerSign1 : Fin 4 → Int
  | 0 => 1
  | 1 => -1
  | 2 => -1
  | 3 => 1

/-- Sign of the second tangent offset for corner `j` of a face. -/
def cornerSign2 : Fin 4 → Int
  | 0 => 1
  | 1 => 1
  | 2 => -1
  | 3 => -1

/-! ### Mesh builder -/

/-- The `cube_vertices` table: the four unit-cube corners of face `k`. -/
def cubeVertices : Fin 6 → List (ℚ × ℚ × ℚ)
  | 0 => [(0, 0, 0), (0, 0, 1), (0, 1, 1), (0, 1, 0)]
  | 1 => [(1, 0, 0), (1, 0, 1), (1, 1, 1), (1, 1, 0)]
  | 2 => [(0, 0, 0), (1, 0, 0), (1, 0, 1), (0, 0, 1)]
  | 3 => [(0, 1, 0), (1, 1, 0), (1, 1, 1), (0, 1, 1)]
  | 4 => [(0, 0, 0), (0, 1, 0), (1, 1, 0), (1, 0, 0)]
  | 5 => [(0, 0, 1), (0, 1, 1), (1, 1, 1), (1, 0, 1)]

/-- The `cube_normals` table: the flat normal of face `k`, repeated for
its four vertices. -/
def cubeNormals : Fin 6 → List (ℚ × ℚ × ℚ)
  | 0 => [(-1, 0, 0), (-1, 0, 0), (-1, 0, 0), (-1, 0, 0)]
  | 1 => [(1, 0, 0), (1, 0, 0), (1, 0, 0), (1, 0, 0)]
  | 2 => [(0, -1, 0), (0, -1, 0), (0, -1, 0), (0, -1, 0)]
  | 3 => [(0, 1, 0), (0, 1, 0), (0, 1, 0), (0, 1, 0)]
  | 4 => [(0, 0, -1), (0, 0, -1), (0, 0, -1), (0, 0, -1)]
  | 5 => [(0, 0, 1), (0, 0, 1), (0, 0, 1), (0, 0, 1)]

/-- The `cube_indices` table for face `k` (taken `% 4` and offset by the
current vertex count when emitted). -/
def cubeIndices : Fin 6 → List Nat
  | 0 => [4, 5, 7, 5, 6, 7]
  | 1 => [0, 3, 1, 1, 3, 2]
  | 2 => [12, 13, 15, 13, 14, 15]
  | 3 => [8, 11, 9, 9, 11, 10]
  | 4 => [20, 21, 23, 21, 22, 23]
  | 5 => [16, 19, 17, 17, 19, 18]

/-- The four output buffers of the mesh builder. -/
structure MeshBufs where
  vertices : List (ℚ × ℚ × ℚ)
  colors : List Vec4Q
  normals : List (ℚ × ℚ × ℚ)
  indices : List Nat
deriving DecidableEq

/-- Componentwise vector addition (`Vec3::from_array(*unit) + position`). -/
def addVec (a b : ℚ × ℚ × ℚ) : ℚ × ℚ × ℚ :=
  (a.1 + b.1, a.2.1 + b.2.1, a.2.2 + b.2.2)

/-- Model of `color * Vec4::new(v, v, v, 1.0)` (componentwise product). -/
def scaleColor (color : Vec4Q) (v : ℚ) : Vec4Q :=
  ⟨color.x * v, color.y * v, color.z * v, color.w * 1⟩

/-- Model of `cube_mesh_parts`: for each of the 6 face bits present in
`directions`, append 4 vertices, 4 colors (the AO components in the
push order c, b, a, d of the source), 4 normals and 6 indices. -/
def cube_mesh_parts (position : ℚ × ℚ × ℚ) (directions : Nat) (color : Vec4Q)
    (ao : Fin 6 → Vec4Q) (bufs : MeshBufs) : MeshBufs :=
  (List.finRange 6).foldl
    (fun bufs k =>
      if directions &&& (1 <<< (k : Nat)) = 0 then bufs
      else
        let count := bufs.vertices.length
        { vertices := bufs.vertices ++
            (cubeVertices k).map (fun unit => addVec unit position),
          colors := bufs.colors ++
            [scaleColor color (ao k).z, scaleColor color (ao k).y,
             scaleColor color (ao k).x, scaleColor color (ao k).w],
          normals := bufs.normals ++ cubeNormals k,
          indices := bufs.indices ++
            (cubeIndices k).map (fun i => count + i % 4) })
    bufs

/-- Model of `position.as_vec3()` (exact for coordinates below 2^24). -/
def posAsVec3 (p : UVec3) : ℚ × ℚ × ℚ := ((p.x : ℚ), (p.y : ℚ), (p.z : ℚ))

/-- Model of `create_structure_mesh`: walk every index, skip Air voxels, emit the
cube parts of every other voxel according to its visibility mask. -/
def create_structure_mesh (c : Chunk) : MeshBufs :=
  (List.range chunkCount).foldl
    (fun bufs index =>
      if c.blockAt (delinearize index) = Block.Air then bufs
      else cube_mesh_parts (posAsVec3 (delinearize index))
        (c.cullAt (delinearize index))
        ((c.blockAt (delinearize index)).color)
        (c.aoAt (delinearize index)) bufs)
    ⟨[], [], [], []⟩

/-- Number of face bits (among the 6 face positions) set in a mask. -/
def bits6 (m : Nat) : Nat :=
  ((List.finRange 6).map
    (fun k => if m &&& (1 <<< (k : Nat)) = 0 then 0 else 1)).sum

/-- Total number of set face-visibility bits over all non-Air voxels. -/
def quadCount (c : Chunk) : Nat :=
  (((List.range chunkCount).map delinearize).map
    (fun p => if c.blockAt p = Block.Air then 0 else bits6 (c.cullAt p))).sum

/-! ### Terrain generator -/

/-- Model of `lerp3d`, trilinear interpolation of the 8 cell-corner samples. -/
def lerp3d (xm_ym_zm xp_ym_zm xm_yp_zm xp_yp_zm
    xm_ym_zp xp_ym_zp xm_yp_zp xp_yp_zp x y z : ℚ) : ℚ :=
  xm_ym_zm * (1 - x) * (1 - y) * (1 - z)
  + xp_ym_zm * x * (1 - y) * (1 - z)
  + xm_yp_zm * (1 - x) * y * (1 - z)
  + xp_yp_zm * x * y * (1 - z)
  + xm_ym_zp * (1 - x) * (1 - y) * z
  + xp_ym_zp * x * (1 - y) * z
  + xm_yp_zp * (1 - x) * y * z
  + xp_yp_zp * x * y * z

/-- The coarse-lattice sample vector `noise_values`: loops
`z, y, x in 0..=64/NOISE_SCALE` (`NOISE_SCALE = 16`, so 5 lines per
axis), sampling the noise field at world lattice coordinates.  The
external `noise::Fbm` field (including its `0.0015` input scale) is
abstracted as the arbitrary function `noise` of the integer lattice
point. -/
def noiseValuesList (noise : Int → Int → Int → ℚ) (position : IVec3) : List ℚ :=
  (List.range 5).flatMap fun z =>
    (List.range 5).flatMap fun y =>
      (List.range 5).map fun x =>
        noise (position.x * 64 + (x : Int) * 16)
          (position.y * 64 + (y : Int) * 16)
          (position.z * 64 + (z : Int) * 16)

/-- The block classification of one voxel in the main loop of `gen_chunk`:
locate the coarse cell, trilinearly interpolate its 8 corner samples,
add the height bias `(32 - world_y) * 0.035`, classify Grass if the sum
is positive, else Air.  (`smx = smy = 5`.) -/
def genBlockAt (noise : Int → Int → Int → ℚ) (position : IVec3)
    (p : UVec3) : Block :=
  let nv := noiseValuesList noise position
  let ix : ℚ := ((p.x % 16 : Nat) : ℚ) / 16
  let iy : ℚ := ((p.y % 16 : Nat) : ℚ) / 16
  let iz : ℚ := ((p.z % 16 : Nat) : ℚ) / 16
  let ny : Int := position.y * 64 + (p.y : Int)
  let mx0 := p.x / 16
  let my0 := p.y / 16
  let mz0 := p.z / 16
  let mx1 := mx0 + 1
  let my1 := my0 + 1
  let mz1 := mz0 + 1
  let x0y0z0 := nv.getD ((mz0 * 5 + my0) * 5 + mx0) 0
  let x1y0z0 := nv.getD ((mz0 * 5 + my0) * 5 + mx1) 0
  let x0y1z0 := nv.getD ((mz0 * 5 + my1) * 5 + mx0) 0
  let x0y0z1 := nv.getD ((mz1 * 5 + my0) * 5 + mx0) 0
  let x1y1z0 := nv.getD ((mz0 * 5 + my1) * 5 + mx1) 0
  let x0y1z1 := nv.getD ((mz1 * 5 + my1) * 5 + mx0) 0
  let x1y0z1 := nv.getD ((mz1 * 5 + my0) * 5 + mx1) 0
  let x1y1z1 := nv.getD ((mz1 * 5 + my1) * 5 + mx1) 0
  let density := lerp3d x0y0z0 x1y0z0 x0y1z0 x1y1z0
    x0y0z1 x1y0z1 x0y1z1 x1y1z1 ix iy iz
  let density_mod : ℚ := ((32 : ℚ) - (ny : ℚ)) * (35 / 1000)
  if 0 < density + density_mod then Block.Grass else Block.Air

/-- The voxel positions written by the main loop of `gen_chunk`, in loop
order (`z` outer, then `x`, then `y`). -/
def genPositions : List UVec3 :=
  (List.range 64).flatMap fun z =>
    (List.range 64).flatMap fun x =>
      (List.range 64).map fun y => ⟨x, y, z⟩

/-- Model of `gen_chunk`: start from the all-Void chunk and classify every voxel
(every write position is in bounds, so the total setter models the
panicking trait call exactly). -/
def gen_chunk (noise : Int → Int → Int → ℚ) (position : IVec3) : Chunk :=
  genPositions.foldl
    (fun chunk p => chunk.setBlockAt p (genBlockAt noise position p))
    ⟨fun _ => voidInfo⟩

/-! ### World streaming manager -/

/-- One in-flight chunk generation job (`Task<(IVec3, Chunk)>`).
`finished` models the scheduler-dependent answer of `is_finished()` at
this tick; `chunk` is the value the completed future yields. -/
structure Job where
  coord : IVec3
  finished : Bool
  chunk : Chunk

/-- A renderable entity spawned for an integrated chunk: its placement
translation (`position.as_vec3() * 64.0`) and its uploaded mesh. -/
structure Ent where
  translation : ℚ × ℚ × ℚ
  mesh : MeshBufs

/-- The `World` resource: view radius, streaming origin, loaded set,
coordinate→entity map, pending job queue. -/
structure WorldState where
  view : Nat
  origin : IVec3
  loaded : List IVec3
  mapping : List (IVec3 × Nat)
  chunk_futures : List Job

/-- The entity spawned when a finished job is integrated. -/
def mkEnt (j : Job) : Ent :=
  ⟨((j.coord.x : ℚ) * 64, (j.coord.y : ℚ) * 64, (j.coord.z : ℚ) * 64),
   create_structure_mesh j.chunk⟩

/-- The drain loop of `spawn`: returns (integrated jobs, carried-over
jobs).  `count >= max` (max = 3) pushes the current job and breaks,
appending the whole remainder; an unfinished job is pushed and skipped;
a finished job under the cap is integrated. -/
def spawnAux : List Job → Nat → List Job × List Job
  | [], _ => ([], [])
  | j :: rest, count =>
    if 3 ≤ count then ([], j :: rest)
    else if j.finished = false then
      ((spawnAux rest count).1, j :: (spawnAux rest count).2)
    else
      (j :: (spawnAux rest (count + 1)).1, (spawnAux rest (count + 1)).2)

/-- The `spawn` system for one tick: integrate up to 3 finished jobs
(spawning their entities), carry the rest over.  `world.mapping` is not
touched by the source. -/
def spawn (w : WorldState) : List Ent × WorldState :=
  ((spawnAux w.chunk_futures 0).1.map mkEnt,
   { w with chunk_futures := (spawnAux w.chunk_futures 0).2 })

/-- The `f32 as i32` cast of an exactly-represented rational: truncation
toward zero (saturation and NaN behavior never reached in scope). -/
def f32AsI32 (q : ℚ) : Int := q.num.tdiv q.den

/-- Model of `camera_transform.translation.as_ivec3() / 64`: per-axis truncating
cast followed by the truncating Rust `i32` division. -/
def cameraChunkCoord (translation : ℚ × ℚ × ℚ) : IVec3 :=
  ⟨(f32AsI32 translation.1).tdiv 64,
   (f32AsI32 translation.2.1).tdiv 64,
   (f32AsI32 translation.2.2).tdiv 64⟩

/-- The integers from `lo` to `hi` inclusive. -/
def rangeInt (lo hi : Int) : List Int :=
  (List.range (hi + 1 - lo).toNat).map (fun (i : Nat) => lo + (i : Int))

/-- The `needed` set built by `load` after an origin change: insert
`origin + (x, y, z)` for `x, z in -view..=view`, `y in 0..=2` (a list
with `HashSet` membership semantics). -/
def neededList (origin : IVec3) (view : Int) : List IVec3 :=
  (rangeInt (-view) view).flatMap fun x =>
    (rangeInt 0 2).flatMap fun y =>
      (rangeInt (-view) view).map fun z => origin + ⟨x, y, z⟩

/-- The job submitted for a missing coordinate: the async task will run
`gen_chunk` → `internal_cull_faces` → `internal_ao` and yield
`(position, chunk)`; it starts unfinished. -/
def mkJob (noise : Int → Int → Int → ℚ) (c : IVec3) : Job :=
  ⟨c, false, internal_ao (internal_cull_faces (gen_chunk noise c))⟩

/-- The `load` system for one tick: recompute the viewer chunk
coordinate; if unchanged, do nothing; otherwise update the origin, build
the needed set, and submit a job for (and mark loaded) every needed
coordinate not already loaded. -/
def load (noise : Int → Int → Int → ℚ) (camTranslation : ℚ × ℚ × ℚ)
    (w : WorldState) : WorldState :=
  let position := cameraChunkCoord camTranslation
  if position = w.origin then w
  else
    let needed := neededList position (w.view : Int)
    let not_loaded := needed.filter (fun c => decide (c ∉ w.loaded))
    { w with
      origin := position,
      loaded := w.loaded ++ not_loaded,
      chunk_futures := w.chunk_futures ++ not_loaded.map (mkJob noise) }

/-- The initial `World` resource inserted in `main`
(`view: 2, origin: (i32::MAX, 0, 0)`, empty collections). -/
def initialWorld : WorldState := ⟨2, ⟨2147483647, 0, 0⟩, [], [], []⟩

/-! Concrete instances used by witnesses and counterexamples. -/

/-- A trivial stand-in noise field. -/
def noise0 : Int → Int → Int → ℚ := fun _ _ _ => 0

/-- A finished job for chunk coordinate (1,2,3). -/
def jobEx : Job := ⟨⟨1, 2, 3⟩, true, Chunk.new⟩

/-- A world with one finished pending job and an empty mapping. -/
def worldEx : WorldState := ⟨2, ⟨0, 0, 0⟩, [⟨1, 2, 3⟩], [], [jobEx]⟩

/-- An idle world whose origin is the chunk containing the camera. -/
def world0 : WorldState := ⟨2, ⟨0, 0, 0⟩, [], [], []⟩

end CityBuilder

namespace CityBuilder

/-! ### Basic indexing lemmas -/

/-- Unfolded form of `delinearize`. -/
theorem delinearize_eq (i : Nat) :
    delinearize i =
      ⟨(i % u32Mod - i % u32Mod / (64 * 64) * (64 * 64)) % 64,
       (i % u32Mod - i % u32Mod / (64 * 64) * (64 * 64)) / 64,
       i % u32Mod / (64 * 64)⟩ := rfl

/-- For an in-bounds position the linear index is below `chunkCount`
(so no `u32` wrap and no `Vec` abort occurs). -/
theorem linearize_lt (p : UVec3) (hp : inBounds p) :
    linearize p < chunkCount := by
  obtain ⟨hx, hy, hz⟩ := hp
  unfold linearize chunkCount u32Mod
  omega

/-- The map `delinearize` is a left inverse of `linearize` on in-bounds
positions. -/
theorem delinearize_linearize (p : UVec3) (hp : inBounds p) :
    delinearize (linearize p) = p := by
  obtain ⟨hx, hy, hz⟩ := hp
  obtain ⟨x, y, z⟩ := p
  simp only [delinearize_eq, linearize, u32Mod, UVec3.mk.injEq]
  simp only at hx hy hz
  omega

/-- The image of a valid index under `delinearize` is in bounds. -/
theorem delinearize_inBounds (i : Nat) (hi : i < chunkCount) :
    inBounds (delinearize i) := by
  rw [delinearize_eq]
  unfold chunkCount at hi
  unfold inBounds u32Mod
  refine ⟨?_, ?_, ?_⟩ <;> simp only [] <;> omega

/-- The map `linearize` is a left inverse of `delinearize` on valid indices. -/
theorem linearize_delinearize (i : Nat) (hi : i < chunkCount) :
    linearize (delinearize i) = i := by
  rw [delinearize_eq]
  unfold chunkCount at hi
  unfold linearize u32Mod
  simp only []
  omega

/-- The map `linearize` is injective on in-bounds positions. -/
theorem linearize_injOn (p q : UVec3) (hp : inBounds p) (hq : inBounds q)
    (h : linearize p = linearize q) : p = q := by
  have := delinearize_linearize p hp
  rw [h, delinearize_linearize q hq] at this
  exact this.symm

/-- Claim C2: for every index `i < 64³`, `linearize (delinearize i) = i`,
every component of `delinearize i` is strictly below 64, and `linearize`
computes exactly `(z * sy + y) * sx + x` (`sx = sy = 64`), with x the
fastest-varying axis. -/
theorem c2_linearize_delinearize_roundtrip :
    (∀ i : Fin chunkCount,
       linearize (delinearize i.val) = i.val ∧
       (delinearize i.val).x < 64 ∧ (delinearize i.val).y < 64 ∧
       (delinearize i.val).z < 64) ∧
    (∀ x y z : Fin 64,
       linearize ⟨x.val, y.val, z.val⟩ = (z.val * 64 + y.val) * 64 + x.val) := by
  constructor
  · intro i
    refine ⟨linearize_delinearize i.val i.isLt, ?_⟩
    have h := delinearize_inBounds i.val i.isLt
    exact ⟨h.1, h.2.1, h.2.2⟩
  · intro x y z
    unfold linearize u32Mod
    have hx := x.isLt
    have hy := y.isLt
    have hz := z.isLt
    simp only []
    omega

/-! ### Component lemmas for the vector types -/

@[simp] theorem IVec3.add_x (a b : IVec3) : (a + b).x = a.x + b.x := rfl

@[simp] theorem IVec3.add_y (a b : IVec3) : (a + b).y = a.y + b.y := rfl

@[simp] theorem IVec3.add_z (a b : IVec3) : (a + b).z = a.z + b.z := rfl

@[simp] theorem IVec3.sub_x (a b : IVec3) : (a - b).x = a.x - b.x := rfl

@[simp] theorem IVec3.sub_y (a b : IVec3) : (a - b).y = a.y - b.y := rfl

@[simp] theorem IVec3.sub_z (a b : IVec3) : (a - b).z = a.z - b.z := rfl

@[simp] theorem UVec3.asIVec3_x (p : UVec3) : p.asIVec3.x = (p.x : Int) := rfl

@[simp] theorem UVec3.asIVec3_y (p : UVec3) : p.asIVec3.y = (p.y : Int) := rfl

@[simp] theorem UVec3.asIVec3_z (p : UVec3) : p.asIVec3.z = (p.z : Int) := rfl

@[simp] theorem IVec3.asUVec3_x (v : IVec3) :
    v.asUVec3.x = (v.x % (u32Mod : Int)).toNat := rfl

@[simp] theorem IVec3.asUVec3_y (v : IVec3) :
    v.asUVec3.y = (v.y % (u32Mod : Int)).toNat := rfl

@[simp] theorem IVec3.asUVec3_z (v : IVec3) :
    v.asUVec3.z = (v.z % (u32Mod : Int)).toNat := rfl

/-- The `i32 → u32` wrap-cast of a component in `i32` range is below 64
exactly when the signed value lies in `[0, 64)`. -/
theorem wrap_lt_iff (a : Int) (hlo : -2147483648 ≤ a) (hhi : a ≤ 2147483647) :
    ((a % (u32Mod : Int)).toNat < 64) ↔ (0 ≤ a ∧ a < 64) := by
  unfold u32Mod
  omega

/-- The wrap-cast is the identity on `[0, 64)`. -/
theorem wrap_toNat (a : Int) (h0 : 0 ≤ a) (h1 : a < 64) :
    (a % (u32Mod : Int)).toNat = a.toNat := by
  unfold u32Mod
  omega

/-! ### Chunk setter/getter interaction -/

theorem blockAt_setCullAt (c : Chunk) (q : UVec3) (m : Nat) (p : UVec3) :
    (c.setCullAt q m).blockAt p = c.blockAt p := by
  unfold Chunk.blockAt Chunk.setCullAt
  simp only []
  split <;> rfl

theorem cullAt_setCullAt (c : Chunk) (q : UVec3) (m : Nat) (p : UVec3) :
    (c.setCullAt q m).cullAt p =
      if linearize p = linearize q then m else c.cullAt p := by
  unfold Chunk.cullAt Chunk.setCullAt
  simp only []
  split <;> simp_all

theorem blockAt_setAoAt (c : Chunk) (q : UVec3) (a : Fin 6 → Vec4Q) (p : UVec3) :
    (c.setAoAt q a).blockAt p = c.blockAt p := by
  unfold Chunk.blockAt Chunk.setAoAt
  simp only []
  split <;> rfl

theorem aoAt_setAoAt (c : Chunk) (q : UVec3) (a : Fin 6 → Vec4Q) (p : UVec3) :
    (c.setAoAt q a).aoAt p =
      if linearize p = linearize q then a else c.aoAt p := by
  unfold Chunk.aoAt Chunk.setAoAt
  simp only []
  split <;> simp_all

theorem blockAt_setBlockAt (c : Chunk) (q : UVec3) (b : Block) (p : UVec3) :
    (c.setBlockAt q b).blockAt p =
      if linearize p = linearize q then b else c.blockAt p := by
  unfold Chunk.blockAt Chunk.setBlockAt
  simp only []
  split <;> simp_all

theorem get_block_eq_some (c : Chunk) (p : UVec3) (hp : inBounds p) :
    c.get_block p = some (c.blockAt p) := by
  unfold Chunk.get_block
  rw [if_pos (linearize_lt p hp)]

/-! ### Generic single-write-per-voxel fold lemmas

Both mutating passes (`internal_cull_faces`, `internal_ao`) run over all
indices, write one derived field at `delinearize index`, and read only
the block field.  These two lemmas capture that pattern. -/

theorem field_fold_blockAt {A : Type} (set : Chunk → UVec3 → A → Chunk)
    (val : Chunk → UVec3 → A)
    (hblock : ∀ c q a p, (set c q a).blockAt p = c.blockAt p)
    (L : List Nat) :
    ∀ (acc : Chunk) (p : UVec3),
      (L.foldl (fun a i => set a (delinearize i) (val a (delinearize i))) acc).blockAt p
        = acc.blockAt p := by
  induction L with
  | nil => intro acc p; rfl
  | cons i L ih =>
    intro acc p
    simp only [List.foldl_cons]
    rw [ih]
    exact hblock _ _ _ _

theorem field_fold_get {A : Type} (get : Chunk → UVec3 → A)
    (set : Chunk → UVec3 → A → Chunk) (val : Chunk → UVec3 → A)
    (hblock : ∀ c q a p, (set c q a).blockAt p = c.blockAt p)
    (hget : ∀ c q a p, get (set c q a) p =
      if linearize p = linearize q then a else get c p)
    (hval : ∀ c₁ c₂ p, (∀ q, c₁.blockAt q = c₂.blockAt q) → val c₁ p = val c₂ p)
    (c : Chunk) :
    ∀ (L : List Nat), (∀ i ∈ L, i < chunkCount) →
    ∀ (acc : Chunk), (∀ q, acc.blockAt q = c.blockAt q) →
    ∀ (p : UVec3), inBounds p →
      get (L.foldl (fun a i => set a (delinearize i) (val a (delinearize i))) acc) p
        = if linearize p ∈ L then val c p else get acc p := by
  intro L
  induction L with
  | nil =>
    intro _ acc _ p _
    simp
  | cons i L ih =>
    intro hL acc hacc p hp
    simp only [List.foldl_cons]
    have hi : i < chunkCount := hL i (List.mem_cons_self i L)
    have hacc' : ∀ q, (set acc (delinearize i) (val acc (delinearize i))).blockAt q
        = c.blockAt q := fun q => (hblock _ _ _ _).trans (hacc q)
    rw [ih (fun j hj => hL j (List.mem_cons_of_mem i hj)) _ hacc' p hp]
    by_cases hmem : linearize p ∈ L
    · rw [if_pos hmem, if_pos (List.mem_cons_of_mem i hmem)]
    · rw [if_neg hmem, hget, linearize_delinearize i hi]
      by_cases heq : linearize p = i
      · have hpi : delinearize i = p := by
          rw [← heq, delinearize_linearize p hp]
        rw [if_pos heq, if_pos (by rw [heq]; exact List.mem_cons_self i L), hpi]
        exact hval acc c p hacc
      · rw [if_neg heq]
        have hni : linearize p ∉ i :: L := by
          intro hmm
          rcases List.mem_cons.mp hmm with h | h
          · exact heq h
          · exact hmem h
        rw [if_neg hni]

/-! ### The culling pass -/

theorem inBounds_mk (a b c : Nat) :
    inBounds ⟨a, b, c⟩ ↔ a < 64 ∧ b < 64 ∧ c < 64 := Iff.rfl

@[simp] theorem UVec3.uvec_mk_x (a b c : Nat) : (UVec3.mk a b c).x = a := rfl

@[simp] theorem UVec3.uvec_mk_y (a b c : Nat) : (UVec3.mk a b c).y = b := rfl

@[simp] theorem UVec3.uvec_mk_z (a b c : Nat) : (UVec3.mk a b c).z = c := rfl

theorem cullBitFor_congr (c₁ c₂ : Chunk) (p : UVec3) (k : Fin 6)
    (h : ∀ q, c₁.blockAt q = c₂.blockAt q) :
    cullBitFor c₁ p k = cullBitFor c₂ p k := by
  unfold cullBitFor
  simp only [h]

theorem cullDirections_congr (c₁ c₂ : Chunk) (p : UVec3)
    (h : ∀ q, c₁.blockAt q = c₂.blockAt q) :
    cullDirections c₁ p = cullDirections c₂ p := by
  unfold cullDirections
  rw [cullBitFor_congr c₁ c₂ p 0 h, cullBitFor_congr c₁ c₂ p 1 h,
    cullBitFor_congr c₁ c₂ p 2 h, cullBitFor_congr c₁ c₂ p 3 h,
    cullBitFor_congr c₁ c₂ p 4 h, cullBitFor_congr c₁ c₂ p 5 h]

/-- After the culling pass, the mask of every in-bounds voxel is the
mask computed from the original block data. -/
theorem cullAt_internal_cull_faces (c : Chunk) (p : UVec3) (hp : inBounds p) :
    (internal_cull_faces c).cullAt p = cullDirections c p := by
  unfold internal_cull_faces
  rw [field_fold_get Chunk.cullAt Chunk.setCullAt cullDirections
      blockAt_setCullAt cullAt_setCullAt
      (fun c₁ c₂ p h => cullDirections_congr c₁ c₂ p h) c
      (List.range chunkCount) (fun i hi => List.mem_range.mp hi)
      c (fun _ => rfl) p hp]
  rw [if_pos (List.mem_range.mpr (linearize_lt p hp))]

/-- The culling pass does not change any block. -/
theorem blockAt_internal_cull_faces (c : Chunk) (p : UVec3) :
    (internal_cull_faces c).blockAt p = c.blockAt p :=
  field_fold_blockAt Chunk.setCullAt cullDirections blockAt_setCullAt
    (List.range chunkCount) c p

/-- The two nested bounds conditions of the loop body collapse to one. -/
theorem cullBitFor_eq_ite (s : Chunk) (p : UVec3) (k : Fin 6) :
    cullBitFor s p k =
      if ((p.asIVec3 + dirNormal k).asUVec3.x < 64 ∧
          (p.asIVec3 + dirNormal k).asUVec3.y < 64 ∧
          (p.asIVec3 + dirNormal k).asUVec3.z < 64) ∧
         s.blockAt ((p.asIVec3 + dirNormal k).asUVec3) = Block.Air
      then 2 ^ (k : Nat) else 0 := by
  unfold cullBitFor
  simp only []
  split_ifs <;> first | rfl | omega | tauto

theorem testBit_ite_pow (c : Prop) [Decidable c] (j k : Nat) :
    Nat.testBit (if c then 2 ^ j else 0) k = (decide c && decide (j = k)) := by
  split <;> simp_all [Nat.testBit_two_pow]

/-- Claim C1: after `internal_cull_faces`, for every in-bounds voxel and
each of the 6 axis-aligned directions, the face-visibility bit for that
direction is set iff the neighboring position in that direction lies
inside the 64×64×64 chunk bounds and the block stored there is Air; in
particular every face bit toward an out-of-bounds neighbor is unset. -/
theorem c1_cull_faces_iff (c : Chunk) (p : UVec3) (hp : inBounds p) (k : Fin 6) :
    Nat.testBit ((internal_cull_faces c).cullAt p) (k : Nat) = true ↔
      ((0 ≤ (p.asIVec3 + dirNormal k).x ∧ (p.asIVec3 + dirNormal k).x < 64 ∧
        0 ≤ (p.asIVec3 + dirNormal k).y ∧ (p.asIVec3 + dirNormal k).y < 64 ∧
        0 ≤ (p.asIVec3 + dirNormal k).z ∧ (p.asIVec3 + dirNormal k).z < 64) ∧
       c.get_block ⟨(p.asIVec3 + dirNormal k).x.toNat,
                    (p.asIVec3 + dirNormal k).y.toNat,
                    (p.asIVec3 + dirNormal k).z.toNat⟩ = some Block.Air) := by
  rw [cullAt_internal_cull_faces c p hp]
  obtain ⟨hx, hy, hz⟩ := hp
  have hd : ∀ j : Fin 6, (-1 ≤ (dirNormal j).x ∧ (dirNormal j).x ≤ 1) ∧
      (-1 ≤ (dirNormal j).y ∧ (dirNormal j).y ≤ 1) ∧
      (-1 ≤ (dirNormal j).z ∧ (dirNormal j).z ≤ 1) := by
    intro j
    fin_cases j <;> simp [dirNormal]
  -- bounds of each neighbor component
  have hbound : ∀ j : Fin 6,
      (-1 ≤ (p.asIVec3 + dirNormal j).x ∧ (p.asIVec3 + dirNormal j).x ≤ 64) ∧
      (-1 ≤ (p.asIVec3 + dirNormal j).y ∧ (p.asIVec3 + dirNormal j).y ≤ 64) ∧
      (-1 ≤ (p.asIVec3 + dirNormal j).z ∧ (p.asIVec3 + dirNormal j).z ≤ 64) := by
    intro j
    obtain ⟨⟨h1, h2⟩, ⟨h3, h4⟩, h5, h6⟩ := hd j
    simp only [IVec3.add_x, IVec3.add_y, IVec3.add_z,
      UVec3.asIVec3_x, UVec3.asIVec3_y, UVec3.asIVec3_z]
    omega
  -- the loop condition for face j, translated to signed bounds
  have hcond : ∀ j : Fin 6,
      ((((p.asIVec3 + dirNormal j).asUVec3.x < 64 ∧
         (p.asIVec3 + dirNormal j).asUVec3.y < 64 ∧
         (p.asIVec3 + dirNormal j).asUVec3.z < 64) ∧
        c.blockAt ((p.asIVec3 + dirNormal j).asUVec3) = Block.Air) ↔
       ((0 ≤ (p.asIVec3 + dirNormal j).x ∧ (p.asIVec3 + dirNormal j).x < 64 ∧
         0 ≤ (p.asIVec3 + dirNormal j).y ∧ (p.asIVec3 + dirNormal j).y < 64 ∧
         0 ≤ (p.asIVec3 + dirNormal j).z ∧ (p.asIVec3 + dirNormal j).z < 64) ∧
        c.get_block ⟨(p.asIVec3 + dirNormal j).x.toNat,
                     (p.asIVec3 + dirNormal j).y.toNat,
                     (p.asIVec3 + dirNormal j).z.toNat⟩ = some Block.Air)) := by
    intro j
    obtain ⟨⟨b1, b2⟩, ⟨b3, b4⟩, b5, b6⟩ := hbound j
    set v := p.asIVec3 + dirNormal j with hv
    constructor
    · rintro ⟨⟨w1, w2, w3⟩, hb⟩
      rw [IVec3.asUVec3_x] at w1
      rw [IVec3.asUVec3_y] at w2
      rw [IVec3.asUVec3_z] at w3
      have c1 : 0 ≤ v.x ∧ v.x < 64 := by unfold u32Mod at w1; omega
      have c2 : 0 ≤ v.y ∧ v.y < 64 := by unfold u32Mod at w2; omega
      have c3 : 0 ≤ v.z ∧ v.z < 64 := by unfold u32Mod at w3; omega
      refine ⟨⟨c1.1, c1.2, c2.1, c2.2, c3.1, c3.2⟩, ?_⟩
      have hvu : v.asUVec3 = ⟨v.x.toNat, v.y.toNat, v.z.toNat⟩ := by
        unfold IVec3.asUVec3
        rw [wrap_toNat v.x c1.1 c1.2, wrap_toNat v.y c2.1 c2.2,
          wrap_toNat v.z c3.1 c3.2]
      have hib : inBounds (UVec3.mk v.x.toNat v.y.toNat v.z.toNat) := by
        rw [inBounds_mk]
        omega
      rw [get_block_eq_some _ _ hib, ← hvu, hb]
    · rintro ⟨⟨c1, c2, c3, c4, c5, c6⟩, hb⟩
      have hvu : v.asUVec3 = ⟨v.x.toNat, v.y.toNat, v.z.toNat⟩ := by
        unfold IVec3.asUVec3
        rw [wrap_toNat v.x c1 c2, wrap_toNat v.y c3 c4, wrap_toNat v.z c5 c6]
      have hib : inBounds (UVec3.mk v.x.toNat v.y.toNat v.z.toNat) := by
        rw [inBounds_mk]
        omega
      rw [get_block_eq_some _ _ hib] at hb
      refine ⟨?_, ?_⟩
      · rw [hvu]
        refine ⟨?_, ?_, ?_⟩ <;>
          simp only [UVec3.uvec_mk_x, UVec3.uvec_mk_y, UVec3.uvec_mk_z] <;> omega
      · rw [hvu]
        exact Option.some.inj hb
  -- reduce the mask to the six contributions, then pick out bit k
  rw [show cullDirections c p =
      cullBitFor c p 0 ||| cullBitFor c p 1 ||| cullBitFor c p 2 |||
      cullBitFor c p 3 ||| cullBitFor c p 4 ||| cullBitFor c p 5 from rfl]
  simp only [Nat.testBit_or, cullBitFor_eq_ite, testBit_ite_pow]
  rw [← hcond k]
  have e0 : ((0 : Fin 6) : Nat) = 0 := rfl
  have e1 : ((1 : Fin 6) : Nat) = 1 := rfl
  have e2 : ((2 : Fin 6) : Nat) = 2 := rfl
  have e3 : ((3 : Fin 6) : Nat) = 3 := rfl
  have e4 : ((4 : Fin 6) : Nat) = 4 := rfl
  have e5 : ((5 : Fin 6) : Nat) = 5 := rfl
  fin_cases k <;>
    simp only [e0, e1, e2, e3, e4, e5, Fin.isValue] <;>
    simp [Bool.or_eq_true, Bool.and_eq_true, decide_eq_true_eq]

/-! ### The ambient-occlusion pass -/

@[simp] theorem IVec3.smul_x (n : Int) (v : IVec3) : (IVec3.smul n v).x = n * v.x := rfl

@[simp] theorem IVec3.smul_y (n : Int) (v : IVec3) : (IVec3.smul n v).y = n * v.y := rfl

@[simp] theorem IVec3.smul_z (n : Int) (v : IVec3) : (IVec3.smul n v).z = n * v.z := rfl

theorem IVec3.ext_comp (a b : IVec3) (h1 : a.x = b.x) (h2 : a.y = b.y)
    (h3 : a.z = b.z) : a = b := by
  cases a
  cases b
  simp_all

theorem add_smul_one (pos d : IVec3) : pos + IVec3.smul 1 d = pos + d := by
  apply IVec3.ext_comp <;> simp

theorem add_smul_neg_one (pos d : IVec3) : pos + IVec3.smul (-1) d = pos - d := by
  apply IVec3.ext_comp <;> simp <;> ring

/-- The 6 sequential entry writes of the AO loop overwrite the whole
array, so the result does not depend on the array that was read. -/
theorem aoUpdateAt_eq (s : Chunk) (p : UVec3) :
    aoUpdateAt s p =
      fun k => voxel_ao s (p.asIVec3 + dirNormal k) (aoD1 k) (aoD2 k) := by
  funext k
  unfold aoUpdateAt
  fin_cases k <;> simp [Function.update]

theorem voxel_present_congr (c₁ c₂ : Chunk) (q : IVec3)
    (h : ∀ r, c₁.blockAt r = c₂.blockAt r) :
    voxel_present c₁ q = voxel_present c₂ q := by
  unfold voxel_present
  simp only [h]

theorem voxel_ao_congr (c₁ c₂ : Chunk) (pos d1 d2 : IVec3)
    (h : ∀ r, c₁.blockAt r = c₂.blockAt r) :
    voxel_ao c₁ pos d1 d2 = voxel_ao c₂ pos d1 d2 := by
  unfold voxel_ao
  simp only [voxel_present_congr c₁ c₂ _ h]

theorem aoUpdateAt_congr (c₁ c₂ : Chunk) (p : UVec3)
    (h : ∀ r, c₁.blockAt r = c₂.blockAt r) :
    aoUpdateAt c₁ p = aoUpdateAt c₂ p := by
  rw [aoUpdateAt_eq, aoUpdateAt_eq]
  funext k
  exact voxel_ao_congr c₁ c₂ _ _ _ h

/-- After the AO pass, the AO array of every in-bounds voxel is the one
computed by `voxel_ao` from the original block data. -/
theorem aoAt_internal_ao (c : Chunk) (p : UVec3) (hp : inBounds p) :
    (internal_ao c).aoAt p =
      fun k => voxel_ao c (p.asIVec3 + dirNormal k) (aoD1 k) (aoD2 k) := by
  unfold internal_ao
  rw [field_fold_get Chunk.aoAt Chunk.setAoAt aoUpdateAt
      blockAt_setAoAt aoAt_setAoAt
      (fun c₁ c₂ p h => aoUpdateAt_congr c₁ c₂ p h) c
      (List.range chunkCount) (fun i hi => List.mem_range.mp hi)
      c (fun _ => rfl) p hp]
  rw [if_pos (List.mem_range.mpr (linearize_lt p hp))]
  exact aoUpdateAt_eq c p

/-- The AO pass does not change any block. -/
theorem blockAt_internal_ao (c : Chunk) (p : UVec3) :
    (internal_ao c).blockAt p = c.blockAt p :=
  field_fold_blockAt Chunk.setAoAt aoUpdateAt blockAt_setAoAt
    (List.range chunkCount) c p

theorem vertex_ao_swap (a b c : ℚ) : vertex_ao a b c = vertex_ao b a c := by
  unfold vertex_ao
  rw [add_comm a b, mul_comm a b]

/-- Corner `j` of `voxel_ao`, written uniformly with the per-corner
tangent sign pattern. -/
theorem voxel_ao_comp (s : Chunk) (pos d1 d2 : IVec3) (j : Fin 4) :
    Vec4Q.comp (voxel_ao s pos d1 d2) j =
      1 - vertex_ao
        (voxel_present s (pos + IVec3.smul (cornerSign1 j) d1))
        (voxel_present s (pos + IVec3.smul (cornerSign2 j) d2))
        (voxel_present s
          (pos + IVec3.smul (cornerSign1 j) d1 + IVec3.smul (cornerSign2 j) d2)) := by
  fin_cases j
  · show Vec4Q.comp (voxel_ao s pos d1 d2) 0 = _
    unfold voxel_ao Vec4Q.comp
    simp only [cornerSign1, cornerSign2, add_smul_one]
  · show Vec4Q.comp (voxel_ao s pos d1 d2) 1 = _
    unfold voxel_ao Vec4Q.comp
    simp only [cornerSign1, cornerSign2, add_smul_one, add_smul_neg_one]
    rw [vertex_ao_swap]
  · show Vec4Q.comp (voxel_ao s pos d1 d2) 2 = _
    unfold voxel_ao Vec4Q.comp
    simp only [cornerSign1, cornerSign2, add_smul_neg_one]
  · show Vec4Q.comp (voxel_ao s pos d1 d2) 3 = _
    unfold voxel_ao Vec4Q.comp
    simp only [cornerSign1, cornerSign2, add_smul_one, add_smul_neg_one]
    rw [vertex_ao_swap]

/-- The wrap-cast occupancy sample of the code agrees with the
signed-bounds occupancy of the spec for positions in `i32` range. -/
theorem voxel_present_eq_occupancy (c : Chunk) (q : IVec3)
    (hx : -1000 ≤ q.x ∧ q.x ≤ 1000) (hy : -1000 ≤ q.y ∧ q.y ≤ 1000)
    (hz : -1000 ≤ q.z ∧ q.z ≤ 1000) :
    voxel_present c q = occupancy c q := by
  unfold voxel_present occupancy
  by_cases hin : 0 ≤ q.x ∧ q.x < 64 ∧ 0 ≤ q.y ∧ q.y < 64 ∧ 0 ≤ q.z ∧ q.z < 64
  · obtain ⟨i1, i2, i3, i4, i5, i6⟩ := hin
    have hvu : q.asUVec3 = ⟨q.x.toNat, q.y.toNat, q.z.toNat⟩ := by
      unfold IVec3.asUVec3
      rw [wrap_toNat _ i1 i2, wrap_toNat _ i3 i4, wrap_toNat _ i5 i6]
    have hW : ¬ (64 ≤ (UVec3.mk q.x.toNat q.y.toNat q.z.toNat).x ∨
        64 ≤ (UVec3.mk q.x.toNat q.y.toNat q.z.toNat).y ∨
        64 ≤ (UVec3.mk q.x.toNat q.y.toNat q.z.toNat).z) := by
      simp only [UVec3.uvec_mk_x, UVec3.uvec_mk_y, UVec3.uvec_mk_z]
      omega
    have hS : 0 ≤ q.x ∧ q.x < 64 ∧ 0 ≤ q.y ∧ q.y < 64 ∧ 0 ≤ q.z ∧ q.z < 64 :=
      ⟨i1, i2, i3, i4, i5, i6⟩
    rw [hvu, if_neg hW, if_pos hS]
  · have hW : 64 ≤ q.asUVec3.x ∨ 64 ≤ q.asUVec3.y ∨ 64 ≤ q.asUVec3.z := by
      simp only [IVec3.asUVec3_x, IVec3.asUVec3_y, IVec3.asUVec3_z]
      unfold u32Mod
      omega
    rw [if_pos hW, if_neg hin]

theorem sign_mul_bounds (s t : Int) (hs : s = 1 ∨ s = -1)
    (ht : 0 ≤ t ∧ t ≤ 1) : -1 ≤ s * t ∧ s * t ≤ 1 := by
  rcases hs with h | h <;> subst h <;> omega

theorem cornerSign1_cases (j : Fin 4) : cornerSign1 j = 1 ∨ cornerSign1 j = -1 := by
  fin_cases j <;> simp [cornerSign1]

theorem cornerSign2_cases (j : Fin 4) : cornerSign2 j = 1 ∨ cornerSign2 j = -1 := by
  fin_cases j <;> simp [cornerSign2]

theorem dirNormal_bounds (k : Fin 6) :
    (-1 ≤ (dirNormal k).x ∧ (dirNormal k).x ≤ 1) ∧
    (-1 ≤ (dirNormal k).y ∧ (dirNormal k).y ≤ 1) ∧
    (-1 ≤ (dirNormal k).z ∧ (dirNormal k).z ≤ 1) := by
  fin_cases k <;> simp [dirNormal]

theorem aoD1_bounds (k : Fin 6) :
    (0 ≤ (aoD1 k).x ∧ (aoD1 k).x ≤ 1) ∧
    (0 ≤ (aoD1 k).y ∧ (aoD1 k).y ≤ 1) ∧
    (0 ≤ (aoD1 k).z ∧ (aoD1 k).z ≤ 1) := by
  fin_cases k <;> simp [aoD1, dirNormal]

theorem aoD2_bounds (k : Fin 6) :
    (0 ≤ (aoD2 k).x ∧ (aoD2 k).x ≤ 1) ∧
    (0 ≤ (aoD2 k).y ∧ (aoD2 k).y ≤ 1) ∧
    (0 ≤ (aoD2 k).z ∧ (aoD2 k).z ≤ 1) := by
  fin_cases k <;> simp [aoD2, dirNormal]

/-- Claim C3: after `internal_ao`, for every in-bounds voxel, face and
corner, the stored factor is
`1 - (side_a + side_b + max(corner, side_a * side_b)) / 3`, where
`side_a`, `side_b` are the 0/1 occupancies of the two voxels offset by
the (signed) tangent axes of the face from the face-adjacent position,
`corner` the occupancy of the diagonal offset, and out-of-bounds
occupancy samples are 0. -/
theorem c3_ao_factor (c : Chunk) (p : UVec3) (hp : inBounds p)
    (k : Fin 6) (j : Fin 4) :
    Vec4Q.comp ((internal_ao c).aoAt p k) j =
      1 - (occupancy c (p.asIVec3 + dirNormal k + IVec3.smul (cornerSign1 j) (aoD1 k))
           + occupancy c (p.asIVec3 + dirNormal k + IVec3.smul (cornerSign2 j) (aoD2 k))
           + max (occupancy c (p.asIVec3 + dirNormal k
                    + IVec3.smul (cornerSign1 j) (aoD1 k)
                    + IVec3.smul (cornerSign2 j) (aoD2 k)))
               (occupancy c (p.asIVec3 + dirNormal k + IVec3.smul (cornerSign1 j) (aoD1 k))
                * occupancy c (p.asIVec3 + dirNormal k + IVec3.smul (cornerSign2 j) (aoD2 k)))) / 3 := by
  rw [aoAt_internal_ao c p hp]
  rw [voxel_ao_comp]
  obtain ⟨hpx, hpy, hpz⟩ := hp
  obtain ⟨⟨n1, n2⟩, ⟨n3, n4⟩, n5, n6⟩ := dirNormal_bounds k
  obtain ⟨⟨t1, t2⟩, ⟨t3, t4⟩, t5, t6⟩ := aoD1_bounds k
  obtain ⟨⟨u1, u2⟩, ⟨u3, u4⟩, u5, u6⟩ := aoD2_bounds k
  obtain ⟨m1x, m1x'⟩ := sign_mul_bounds _ _ (cornerSign1_cases j) ⟨t1, t2⟩
  obtain ⟨m1y, m1y'⟩ := sign_mul_bounds _ ((aoD1 k).y) (cornerSign1_cases j) ⟨t3, t4⟩
  obtain ⟨m1z, m1z'⟩ := sign_mul_bounds _ ((aoD1 k).z) (cornerSign1_cases j) ⟨t5, t6⟩
  obtain ⟨m2x, m2x'⟩ := sign_mul_bounds _ ((aoD2 k).x) (cornerSign2_cases j) ⟨u1, u2⟩
  obtain ⟨m2y, m2y'⟩ := sign_mul_bounds _ ((aoD2 k).y) (cornerSign2_cases j) ⟨u3, u4⟩
  obtain ⟨m2z, m2z'⟩ := sign_mul_bounds _ ((aoD2 k).z) (cornerSign2_cases j) ⟨u5, u6⟩
  rw [voxel_present_eq_occupancy c _
        (by simp only [IVec3.add_x, IVec3.smul_x, UVec3.asIVec3_x]; omega)
        (by simp only [IVec3.add_y, IVec3.smul_y, UVec3.asIVec3_y]; omega)
        (by simp only [IVec3.add_z, IVec3.smul_z, UVec3.asIVec3_z]; omega),
      voxel_present_eq_occupancy c _
        (by simp only [IVec3.add_x, IVec3.smul_x, UVec3.asIVec3_x]; omega)
        (by simp only [IVec3.add_y, IVec3.smul_y, UVec3.asIVec3_y]; omega)
        (by simp only [IVec3.add_z, IVec3.smul_z, UVec3.asIVec3_z]; omega),
      voxel_present_eq_occupancy c _
        (by simp only [IVec3.add_x, IVec3.smul_x, UVec3.asIVec3_x]; omega)
        (by simp only [IVec3.add_y, IVec3.smul_y, UVec3.asIVec3_y]; omega)
        (by simp only [IVec3.add_z, IVec3.smul_z, UVec3.asIVec3_z]; omega)]
  unfold vertex_ao
  ring_nf

/-! ### The mesh builder -/

theorem cubeVertices_length (k : Fin 6) : (cubeVertices k).length = 4 := by
  fin_cases k <;> rfl

theorem cubeNormals_length (k : Fin 6) : (cubeNormals k).length = 4 := by
  fin_cases k <;> rfl

theorem cubeIndices_length (k : Fin 6) : (cubeIndices k).length = 6 := by
  fin_cases k <;> rfl

theorem cube_parts_gen (position : ℚ × ℚ × ℚ) (m : Nat) (color : Vec4Q)
    (ao : Fin 6 → Vec4Q) :
    ∀ (ks : List (Fin 6)) (bufs : MeshBufs),
      ((ks.foldl
        (fun bufs k =>
          if m &&& (1 <<< k.val) = 0 then bufs
          else
            let count := bufs.vertices.length
            { vertices := bufs.vertices ++
                (cubeVertices k).map (fun unit => addVec unit position),
              colors := bufs.colors ++
                [scaleColor color (ao k).z, scaleColor color (ao k).y,
                 scaleColor color (ao k).x, scaleColor color (ao k).w],
              normals := bufs.normals ++ cubeNormals k,
              indices := bufs.indices ++
                (cubeIndices k).map (fun i => count + i % 4) })
        bufs).vertices.length
          = bufs.vertices.length +
            4 * (ks.map (fun k => if m &&& (1 <<< k.val) = 0 then 0 else 1)).sum) ∧
      ((ks.foldl
        (fun bufs k =>
          if m &&& (1 <<< k.val) = 0 then bufs
          else
            let count := bufs.vertices.length
            { vertices := bufs.vertices ++
                (cubeVertices k).map (fun unit => addVec unit position),
              colors := bufs.colors ++
                [scaleColor color (ao k).z, scaleColor color (ao k).y,
                 scaleColor color (ao k).x, scaleColor color (ao k).w],
              normals := bufs.normals ++ cubeNormals k,
              indices := bufs.indices ++
                (cubeIndices k).map (fun i => count + i % 4) })
        bufs).colors.length
          = bufs.colors.length +
            4 * (ks.map (fun k => if m &&& (1 <<< k.val) = 0 then 0 else 1)).sum) ∧
      ((ks.foldl
        (fun bufs k =>
          if m &&& (1 <<< k.val) = 0 then bufs
          else
            let count := bufs.vertices.length
            { vertices := bufs.vertices ++
                (cubeVertices k).map (fun unit => addVec unit position),
              colors := bufs.colors ++
                [scaleColor color (ao k).z, scaleColor color (ao k).y,
                 scaleColor color (ao k).x, scaleColor color (ao k).w],
              normals := bufs.normals ++ cubeNormals k,
              indices := bufs.indices ++
                (cubeIndices k).map (fun i => count + i % 4) })
        bufs).normals.length
          = bufs.normals.length +
            4 * (ks.map (fun k => if m &&& (1 <<< k.val) = 0 then 0 else 1)).sum) ∧
      ((ks.foldl
        (fun bufs k =>
          if m &&& (1 <<< k.val) = 0 then bufs
          else
            let count := bufs.vertices.length
            { vertices := bufs.vertices ++
                (cubeVertices k).map (fun unit => addVec unit position),
              colors := bufs.colors ++
                [scaleColor color (ao k).z, scaleColor color (ao k).y,
                 scaleColor color (ao k).x, scaleColor color (ao k).w],
              normals := bufs.normals ++ cubeNormals k,
              indices := bufs.indices ++
                (cubeIndices k).map (fun i => count + i % 4) })
        bufs).indices.length
          = bufs.indices.length +
            6 * (ks.map (fun k => if m &&& (1 <<< k.val) = 0 then 0 else 1)).sum) := by
  intro ks
  induction ks with
  | nil => intro bufs; simp
  | cons k ks ih =>
    intro bufs
    simp only [List.foldl_cons, List.map_cons, List.sum_cons]
    by_cases hbit : m &&& (1 <<< k.val) = 0
    · obtain ⟨v, cl, n, i⟩ := ih bufs
      rw [if_pos hbit]
      refine ⟨?_, ?_, ?_, ?_⟩ <;> simp only [v, cl, n, i, if_pos hbit] <;> ring
    · obtain ⟨v, cl, n, i⟩ := ih
        { vertices := bufs.vertices ++
            (cubeVertices k).map (fun unit => addVec unit position),
          colors := bufs.colors ++
            [scaleColor color (ao k).z, scaleColor color (ao k).y,
             scaleColor color (ao k).x, scaleColor color (ao k).w],
          normals := bufs.normals ++ cubeNormals k,
          indices := bufs.indices ++
            (cubeIndices k).map (fun i => bufs.vertices.length + i % 4) }
      rw [if_neg hbit]
      refine ⟨?_, ?_, ?_, ?_⟩
      · rw [v]
        simp only [List.length_append, List.length_map, cubeVertices_length,
          if_neg hbit]
        ring
      · rw [cl]
        simp only [List.length_append, List.length_cons, List.length_nil,
          if_neg hbit]
        ring
      · rw [n]
        simp only [List.length_append, cubeNormals_length, if_neg hbit]
        ring
      · rw [i]
        simp only [List.length_append, List.length_map, cubeIndices_length,
          if_neg hbit]
        ring

/-- Buffer growth of one `cube_mesh_parts` call. -/
theorem cube_mesh_parts_len (position : ℚ × ℚ × ℚ) (m : Nat) (color : Vec4Q)
    (ao : Fin 6 → Vec4Q) (bufs : MeshBufs) :
    (cube_mesh_parts position m color ao bufs).vertices.length
      = bufs.vertices.length + 4 * bits6 m ∧
    (cube_mesh_parts position m color ao bufs).colors.length
      = bufs.colors.length + 4 * bits6 m ∧
    (cube_mesh_parts position m color ao bufs).normals.length
      = bufs.normals.length + 4 * bits6 m ∧
    (cube_mesh_parts position m color ao bufs).indices.length
      = bufs.indices.length + 6 * bits6 m :=
  cube_parts_gen position m color ao (List.finRange 6) bufs

/-- Buffer growth of the whole per-voxel mesh fold. -/
theorem mesh_fold_len (c : Chunk) :
    ∀ (L : List Nat) (bufs : MeshBufs),
      ((L.foldl
        (fun bufs index =>
          if c.blockAt (delinearize index) = Block.Air then bufs
          else cube_mesh_parts (posAsVec3 (delinearize index))
            (c.cullAt (delinearize index))
            ((c.blockAt (delinearize index)).color)
            (c.aoAt (delinearize index)) bufs)
        bufs).vertices.length
        = bufs.vertices.length + 4 * ((L.map delinearize).map
            (fun p => if c.blockAt p = Block.Air then 0
              else bits6 (c.cullAt p))).sum) ∧
      ((L.foldl
        (fun bufs index =>
          if c.blockAt (delinearize index) = Block.Air then bufs
          else cube_mesh_parts (posAsVec3 (delinearize index))
            (c.cullAt (delinearize index))
            ((c.blockAt (delinearize index)).color)
            (c.aoAt (delinearize index)) bufs)
        bufs).colors.length
        = bufs.colors.length + 4 * ((L.map delinearize).map
            (fun p => if c.blockAt p = Block.Air then 0
              else bits6 (c.cullAt p))).sum) ∧
      ((L.foldl
        (fun bufs index =>
          if c.blockAt (delinearize index) = Block.Air then bufs
          else cube_mesh_parts (posAsVec3 (delinearize index))
            (c.cullAt (delinearize index))
            ((c.blockAt (delinearize index)).color)
            (c.aoAt (delinearize index)) bufs)
        bufs).normals.length
        = bufs.normals.length + 4 * ((L.map delinearize).map
            (fun p => if c.blockAt p = Block.Air then 0
              else bits6 (c.cullAt p))).sum) ∧
      ((L.foldl
        (fun bufs index =>
          if c.blockAt (delinearize index) = Block.Air then bufs
          else cube_mesh_parts (posAsVec3 (delinearize index))
            (c.cullAt (delinearize index))
            ((c.blockAt (delinearize index)).color)
            (c.aoAt (delinearize index)) bufs)
        bufs).indices.length
        = bufs.indices.length + 6 * ((L.map delinearize).map
            (fun p => if c.blockAt p = Block.Air then 0
              else bits6 (c.cullAt p))).sum) := by
  intro L
  induction L with
  | nil => intro bufs; simp
  | cons idx L ih =>
    intro bufs
    simp only [List.foldl_cons, List.map_cons, List.sum_cons]
    by_cases hair : c.blockAt (delinearize idx) = Block.Air
    · obtain ⟨v, cl, n, i⟩ := ih bufs
      rw [if_pos hair]
      refine ⟨?_, ?_, ?_, ?_⟩ <;>
        simp only [v, cl, n, i, if_pos hair] <;> ring
    · obtain ⟨v, cl, n, i⟩ := ih (cube_mesh_parts (posAsVec3 (delinearize idx))
        (c.cullAt (delinearize idx)) ((c.blockAt (delinearize idx)).color)
        (c.aoAt (delinearize idx)) bufs)
      obtain ⟨v', cl', n', i'⟩ := cube_mesh_parts_len (posAsVec3 (delinearize idx))
        (c.cullAt (delinearize idx)) ((c.blockAt (delinearize idx)).color)
        (c.aoAt (delinearize idx)) bufs
      rw [if_neg hair]
      refine ⟨?_, ?_, ?_, ?_⟩
      · rw [v, v', if_neg hair]; ring
      · rw [cl, cl', if_neg hair]; ring
      · rw [n, n', if_neg hair]; ring
      · rw [i, i', if_neg hair]; ring

set_option maxRecDepth 4000 in
/-- Claim C4: the mesh builder emits geometry only for non-Air voxels,
and the number of emitted quads — 4 vertices, 4 colors, 4 normals and
6 indices per quad — equals the total number of set face-visibility bits
over all non-Air voxels. -/
theorem c4_mesh_quad_count (c : Chunk) :
    (create_structure_mesh c).vertices.length = 4 * quadCount c ∧
    (create_structure_mesh c).colors.length = 4 * quadCount c ∧
    (create_structure_mesh c).normals.length = 4 * quadCount c ∧
    (create_structure_mesh c).indices.length = 6 * quadCount c := by
  obtain ⟨v, cl, n, i⟩ := mesh_fold_len c (List.range chunkCount) ⟨[], [], [], []⟩
  simp only [List.length_nil, Nat.zero_add] at v cl n i
  exact ⟨v, cl, n, i⟩

/-! ### The terrain generator -/

theorem blockAt_set_fold (f : UVec3 → Block) :
    ∀ (L : List UVec3), (∀ q ∈ L, inBounds q) →
    ∀ (acc : Chunk) (p : UVec3), inBounds p →
      (L.foldl (fun a q => a.setBlockAt q (f q)) acc).blockAt p
        = if p ∈ L then f p else acc.blockAt p := by
  intro L
  induction L with
  | nil =>
    intro _ acc p _
    simp
  | cons q L ih =>
    intro hL acc p hp
    simp only [List.foldl_cons]
    rw [ih (fun r hr => hL r (List.mem_cons_of_mem q hr)) _ p hp]
    by_cases hmem : p ∈ L
    · rw [if_pos hmem, if_pos (List.mem_cons_of_mem q hmem)]
    · rw [if_neg hmem, blockAt_setBlockAt]
      by_cases heq : linearize p = linearize q
      · have hpq : p = q :=
          linearize_injOn p q hp (hL q (List.mem_cons_self q L)) heq
        rw [if_pos heq, if_pos (hpq ▸ List.mem_cons_self q L), hpq]
      · rw [if_neg heq]
        have : p ∉ q :: L := by
          intro hmm
          rcases List.mem_cons.mp hmm with h | h
          · exact heq (h ▸ rfl)
          · exact hmem h
        rw [if_neg this]

theorem mem_genPositions (p : UVec3) : p ∈ genPositions ↔ inBounds p := by
  obtain ⟨px, py, pz⟩ := p
  simp only [genPositions, List.mem_flatMap, List.mem_map, List.mem_range,
    inBounds_mk]
  constructor
  · rintro ⟨z, hz, x, hx, y, hy, h⟩
    injection h with h1 h2 h3
    subst h1
    subst h2
    subst h3
    exact ⟨hx, hy, hz⟩
  · rintro ⟨h1, h2, h3⟩
    exact ⟨pz, h3, px, h1, py, h2, rfl⟩

theorem blockAt_gen_chunk (noise : Int → Int → Int → ℚ) (position : IVec3)
    (p : UVec3) (hp : inBounds p) :
    (gen_chunk noise position).blockAt p = genBlockAt noise position p := by
  unfold gen_chunk
  rw [blockAt_set_fold (genBlockAt noise position) genPositions
      (fun q hq => (mem_genPositions q).mp hq) _ p hp,
    if_pos ((mem_genPositions p).mpr hp)]

/-- Claim C10: every voxel of a generated chunk is classified Grass or
Air — the Void sentinel never survives generation and Stone is never
produced — for every noise field and chunk coordinate. -/
theorem c10_gen_chunk_grass_or_air (noise : Int → Int → Int → ℚ)
    (position : IVec3) (p : UVec3) (hp : inBounds p) :
    (gen_chunk noise position).get_block p = some Block.Grass ∨
    (gen_chunk noise position).get_block p = some Block.Air := by
  rw [get_block_eq_some _ _ hp, blockAt_gen_chunk noise position p hp]
  simp only [genBlockAt]
  split
  · exact Or.inl rfl
  · exact Or.inr rfl

/-- Concrete witness for C10. -/
theorem c10_gen_chunk_grass_or_air_witness :
    inBounds ⟨0, 0, 0⟩ ∧
    ((gen_chunk noise0 ⟨0, 0, 0⟩).get_block ⟨0, 0, 0⟩ = some Block.Grass ∨
     (gen_chunk noise0 ⟨0, 0, 0⟩).get_block ⟨0, 0, 0⟩ = some Block.Air) :=
  ⟨by decide, c10_gen_chunk_grass_or_air noise0 ⟨0, 0, 0⟩ ⟨0, 0, 0⟩ (by decide)⟩

/-! ### The integration step (`spawn`) -/

/-- Full characterisation of the drain loop: the integrated jobs are the
first `3 - count` finished jobs; the carried-over jobs are an
order-preserving sublist accounting for everything else, containing in
particular every unfinished job. -/
theorem spawnAux_spec (jobs : List Job) : ∀ count : Nat,
    (spawnAux jobs count).1
      = (jobs.filter (fun j => j.finished)).take (3 - count) ∧
    (spawnAux jobs count).2.Sublist jobs ∧
    (spawnAux jobs count).1.length + (spawnAux jobs count).2.length
      = jobs.length ∧
    (spawnAux jobs count).2.filter (fun j => !j.finished)
      = jobs.filter (fun j => !j.finished) := by
  induction jobs with
  | nil =>
    intro count
    simp [spawnAux]
  | cons j rest ih =>
    intro count
    by_cases hc : 3 ≤ count
    · have h30 : 3 - count = 0 := by omega
      refine ⟨?_, ?_, ?_, ?_⟩ <;>
        simp [spawnAux, if_pos hc, h30, List.Sublist.refl]
    · by_cases hf : j.finished = false
      · obtain ⟨h1, h2, h3, h4⟩ := ih count
        refine ⟨?_, ?_, ?_, ?_⟩
        · simp [spawnAux, if_neg hc, if_pos hf, h1, List.filter_cons, hf]
        · simp only [spawnAux, if_neg hc, if_pos hf]
          exact List.Sublist.cons₂ j h2
        · simp [spawnAux, if_neg hc, if_pos hf]
          omega
        · simp [spawnAux, if_neg hc, if_pos hf, List.filter_cons, hf, h4]
      · obtain ⟨h1, h2, h3, h4⟩ := ih (count + 1)
        have hft : j.finished = true := by
          cases h : j.finished
          · exact absurd h hf
          · rfl
        have htake : 3 - count = (3 - (count + 1)) + 1 := by omega
        refine ⟨?_, ?_, ?_, ?_⟩
        · simp [spawnAux, if_neg hc, if_neg hf, h1, List.filter_cons, hft,
            htake]
        · simp only [spawnAux, if_neg hc, if_neg hf]
          exact List.Sublist.cons j h2
        · simp [spawnAux, if_neg hc, if_neg hf]
          omega
        · simp [spawnAux, if_neg hc, if_neg hf, List.filter_cons, hft, h4]

/-- Claim C7: in one tick, `spawn` integrates at most 3 jobs, exactly
the first (up to) 3 finished ones in submission order; every unfinished
job and every job beyond the cap is carried over, and the carried-over
collection preserves the relative submission order (it is a sublist of
the original queue accounting for all non-integrated jobs). -/
theorem c7_spawn_rate_limit (w : WorldState) :
    (spawn w).1.length ≤ 3 ∧
    (spawn w).1
      = ((w.chunk_futures.filter (fun j => j.finished)).take 3).map mkEnt ∧
    ((spawn w).2.chunk_futures).Sublist w.chunk_futures ∧
    (spawn w).1.length + (spawn w).2.chunk_futures.length
      = w.chunk_futures.length ∧
    ((spawn w).2.chunk_futures).filter (fun j => !j.finished)
      = w.chunk_futures.filter (fun j => !j.finished) := by
  obtain ⟨h1, h2, h3, h4⟩ := spawnAux_spec w.chunk_futures 0
  refine ⟨?_, ?_, h2, ?_, h4⟩
  · show ((spawnAux w.chunk_futures 0).1.map mkEnt).length ≤ 3
    rw [List.length_map, h1]
    exact le_trans (List.length_take_le _ _) (by norm_num)
  · show (spawnAux w.chunk_futures 0).1.map mkEnt = _
    rw [h1]
  · show ((spawnAux w.chunk_futures 0).1.map mkEnt).length + _ = _
    rw [List.length_map]
    exact h3

/-- Counterexample to claim C8: integrating the finished job for chunk
coordinate (1,2,3) spawns the renderable entity at translation
(64,128,192), but the coordinate→entity mapping of the streaming state
is left empty — `spawn` never records the association. -/
theorem c8_mapping_counterexample :
    (spawn worldEx).1.map Ent.translation = [((64 : ℚ), (128 : ℚ), (192 : ℚ))] ∧
    (spawn worldEx).2.mapping = [] ∧
    ∀ e : Nat, (⟨1, 2, 3⟩, e) ∉ (spawn worldEx).2.mapping := by
  refine ⟨?_, rfl, ?_⟩
  · rw [show (spawn worldEx).1 = [mkEnt jobEx] from rfl]
    simp only [List.map_cons, List.map_nil, mkEnt, jobEx]
    norm_num
  · intro e
    simp [spawn, worldEx]

set_option maxRecDepth 4000 in
/-- Claim C8 (amended): integrating a finished job for coordinate `c`
creates a renderable entity at translation `c * 64` carrying the mesh
built from the chunk of the job, but the coordinate→entity mapping (like the
origin and loaded set) is left unchanged — no association is recorded. -/
theorem c8_spawn_entity_amended (w : WorldState) :
    (spawn w).2.mapping = w.mapping ∧
    (spawn w).2.origin = w.origin ∧
    (spawn w).2.loaded = w.loaded ∧
    (∀ e, e ∈ (spawn w).1 →
      ∃ j, j ∈ w.chunk_futures ∧ j.finished = true ∧
        e.translation
          = ((j.coord.x : ℚ) * 64, (j.coord.y : ℚ) * 64, (j.coord.z : ℚ) * 64) ∧
        e.mesh = create_structure_mesh j.chunk) := by
  refine ⟨rfl, rfl, rfl, ?_⟩
  intro e he
  obtain ⟨h1, _, _, _⟩ := spawnAux_spec w.chunk_futures 0
  rw [show (spawn w).1 = (spawnAux w.chunk_futures 0).1.map mkEnt from rfl,
    h1] at he
  obtain ⟨j, hj, rfl⟩ := List.mem_map.mp he
  have hj' : j ∈ w.chunk_futures.filter (fun j => j.finished) :=
    List.mem_of_mem_take hj
  obtain ⟨hjm, hjf⟩ := List.mem_filter.mp hj'
  refine ⟨j, hjm, ?_, ?_, ?_⟩
  · exact hjf
  · unfold mkEnt
    with_reducible rfl
  · unfold mkEnt
    with_reducible rfl

/-- Concrete witness for the amended C8. -/
theorem c8_spawn_entity_amended_witness :
    (spawn worldEx).2.mapping = worldEx.mapping ∧
    ∃ j, j ∈ worldEx.chunk_futures ∧ j.finished = true ∧
      (mkEnt jobEx).translation
        = ((j.coord.x : ℚ) * 64, (j.coord.y : ℚ) * 64, (j.coord.z : ℚ) * 64) ∧
      (mkEnt jobEx).mesh = create_structure_mesh j.chunk :=
  ⟨(c8_spawn_entity_amended worldEx).1,
   (c8_spawn_entity_amended worldEx).2.2.2 (mkEnt jobEx)
     ((by rfl : (spawn worldEx).1 = [mkEnt jobEx]) ▸
       List.mem_singleton_self (mkEnt jobEx))⟩

/-! ### Accessor out-of-bounds behavior -/

/-- Counterexample to claim C9: the position (64,0,0) has a component
≥ 64, yet `get_block` succeeds (returning the record of voxel (0,1,0),
which shares linear index 64), and `set_block` silently writes that
record of that other voxel instead of aborting. -/
theorem c9_accessor_counterexample :
    Chunk.new.get_block ⟨64, 0, 0⟩ = some Block.Void ∧
    Chunk.new.get_block ⟨64, 0, 0⟩ = Chunk.new.get_block ⟨0, 1, 0⟩ ∧
    (∃ c', Chunk.new.set_block ⟨64, 0, 0⟩ Block.Grass = some c' ∧
      c'.get_block ⟨0, 1, 0⟩ = some Block.Grass) := by
  refine ⟨by decide, by decide, ⟨Chunk.new.setBlockAt ⟨64, 0, 0⟩ Block.Grass, ?_, ?_⟩⟩
  · unfold Chunk.set_block
    rw [if_pos (by decide : linearize ⟨64, 0, 0⟩ < chunkCount)]
  · decide

/-- Claim C9 (amended): the six accessors abort exactly when the
linearized index `((z*64 + y)*64 + x)` falls outside the backing array
(≥ 64³); a position with a component ≥ 64 whose linearized index is
still < 64³ silently reads or writes the record of the voxel
`delinearize (linearize pos)` instead. -/
theorem c9_accessors_amended (c : Chunk) (p : UVec3) (b : Block) (m : Nat)
    (a : Fin 6 → Vec4Q) :
    (c.get_block p = none ↔ chunkCount ≤ linearize p) ∧
    (c.set_block p b = none ↔ chunkCount ≤ linearize p) ∧
    (c.get_cull p = none ↔ chunkCount ≤ linearize p) ∧
    (c.set_cull p m = none ↔ chunkCount ≤ linearize p) ∧
    (c.get_ao p = none ↔ chunkCount ≤ linearize p) ∧
    (c.set_ao p a = none ↔ chunkCount ≤ linearize p) ∧
    (linearize p < chunkCount →
      c.get_block p = c.get_block (delinearize (linearize p)) ∧
      ∃ c', c.set_block p b = some c' ∧
        c'.get_block (delinearize (linearize p)) = some b) := by
  have key : ∀ {α : Type} (v : α),
      ((if linearize p < chunkCount then some v else none) = none ↔
        chunkCount ≤ linearize p) := by
    intro α v
    split
    · simp
      omega
    · simp
      omega
  refine ⟨key _, key _, key _, key _, key _, key _, ?_⟩
  intro h
  constructor
  · unfold Chunk.get_block Chunk.blockAt
    rw [linearize_delinearize _ h]
  · refine ⟨c.setBlockAt p b, ?_, ?_⟩
    · unfold Chunk.set_block
      rw [if_pos h]
    · unfold Chunk.get_block Chunk.blockAt Chunk.setBlockAt
      rw [linearize_delinearize _ h]
      simp [if_pos h]

/-- Concrete witness for the amended C9, at the aliasing position
(64,0,0). -/
theorem c9_accessors_amended_witness :
    linearize ⟨64, 0, 0⟩ < chunkCount ∧
    (Chunk.new.get_block ⟨64, 0, 0⟩
        = Chunk.new.get_block (delinearize (linearize ⟨64, 0, 0⟩)) ∧
      ∃ c', Chunk.new.set_block ⟨64, 0, 0⟩ Block.Grass = some c' ∧
        c'.get_block (delinearize (linearize ⟨64, 0, 0⟩)) = some Block.Grass) :=
  ⟨by decide,
   (c9_accessors_amended Chunk.new ⟨64, 0, 0⟩ Block.Grass 0
      (fun _ => ⟨0, 0, 0, 0⟩)).2.2.2.2.2.2 (by decide)⟩

/-! ### The load step -/

@[simp] theorem IVec3.ivec_mk_x (a b c : Int) : (IVec3.mk a b c).x = a := rfl

@[simp] theorem IVec3.ivec_mk_y (a b c : Int) : (IVec3.mk a b c).y = b := rfl

@[simp] theorem IVec3.ivec_mk_z (a b c : Int) : (IVec3.mk a b c).z = c := rfl

theorem rangeInt_mem (lo hi a : Int) :
    a ∈ rangeInt lo hi ↔ lo ≤ a ∧ a ≤ hi := by
  unfold rangeInt
  simp only [List.mem_map, List.mem_range]
  constructor
  · rintro ⟨i, hi, rfl⟩
    omega
  · rintro ⟨h1, h2⟩
    exact ⟨(a - lo).toNat, by omega, by omega⟩

/-- Membership in the needed set: x and z within `view` of the new
origin, y within the band `[origin.y, origin.y + 2]`. -/
theorem mem_neededList (origin : IVec3) (view : Int) (c : IVec3) :
    c ∈ neededList origin view ↔
      (origin.x - view ≤ c.x ∧ c.x ≤ origin.x + view ∧
       origin.y ≤ c.y ∧ c.y ≤ origin.y + 2 ∧
       origin.z - view ≤ c.z ∧ c.z ≤ origin.z + view) := by
  unfold neededList
  simp only [List.mem_flatMap, List.mem_map, rangeInt_mem]
  constructor
  · rintro ⟨x, hx, y, hy, z, hz, rfl⟩
    simp only [IVec3.add_x, IVec3.add_y, IVec3.add_z,
      IVec3.ivec_mk_x, IVec3.ivec_mk_y, IVec3.ivec_mk_z]
    omega
  · rintro h
    refine ⟨c.x - origin.x, by omega, c.y - origin.y, by omega,
      c.z - origin.z, by omega, ?_⟩
    apply IVec3.ext_comp <;>
      simp only [IVec3.add_x, IVec3.add_y, IVec3.add_z,
        IVec3.ivec_mk_x, IVec3.ivec_mk_y, IVec3.ivec_mk_z] <;>
      omega

/-- Counterexample to claim C5: with the origin moving to (0,1,0)
(camera at world position (5,70,5)) and nothing loaded, `load` submits a
job for coordinate (0,3,0), whose y component is outside the fixed band
[0,2] the claim asserts. -/
theorem c5_band_counterexample :
    cameraChunkCoord ((5 : ℚ), (70 : ℚ), (5 : ℚ)) = ⟨0, 1, 0⟩ ∧
    cameraChunkCoord ((5 : ℚ), (70 : ℚ), (5 : ℚ)) ≠ initialWorld.origin ∧
    initialWorld.loaded = [] ∧
    (⟨0, 3, 0⟩ : IVec3) ∈
      ((load noise0 ((5 : ℚ), (70 : ℚ), (5 : ℚ)) initialWorld).chunk_futures.map
        Job.coord) ∧
    ¬ ((0 : Int) ≤ 3 ∧ (3 : Int) ≤ 2) := by
  exact ⟨by decide, by decide, rfl, by decide, by decide⟩

/-- Claim C5 (amended): after an origin change, the needed coordinates
are exactly those with x and z within `view_radius` (inclusive) of the
new origin and y in the band `[origin.y, origin.y + 2]` — the band is
relative to the y of the new origin, not fixed at [0,2] — and jobs are
submitted for exactly the set difference of this set against the loaded
set. -/
theorem c5_load_needed_amended (noise : Int → Int → Int → ℚ)
    (cam : ℚ × ℚ × ℚ) (w : WorldState)
    (h : cameraChunkCoord cam ≠ w.origin) (c : IVec3) :
    (load noise cam w).origin = cameraChunkCoord cam ∧
    (c ∈ neededList (cameraChunkCoord cam) (w.view : Int) ↔
      (-(w.view : Int) ≤ c.x - (cameraChunkCoord cam).x ∧
       c.x - (cameraChunkCoord cam).x ≤ (w.view : Int) ∧
       (cameraChunkCoord cam).y ≤ c.y ∧ c.y ≤ (cameraChunkCoord cam).y + 2 ∧
       -(w.view : Int) ≤ c.z - (cameraChunkCoord cam).z ∧
       c.z - (cameraChunkCoord cam).z ≤ (w.view : Int))) ∧
    ((∃ j ∈ (load noise cam w).chunk_futures, j.coord = c) ↔
      ((∃ j ∈ w.chunk_futures, j.coord = c) ∨
       (c ∈ neededList (cameraChunkCoord cam) (w.view : Int) ∧
        c ∉ w.loaded))) := by
  have hcf : (load noise cam w).chunk_futures
      = w.chunk_futures ++
        ((neededList (cameraChunkCoord cam) (w.view : Int)).filter
          (fun c => decide (c ∉ w.loaded))).map (mkJob noise) := by
    simp only [load]
    rw [if_neg h]
  have ho : (load noise cam w).origin = cameraChunkCoord cam := by
    simp only [load]
    rw [if_neg h]
  refine ⟨ho, ?_, ?_⟩
  · rw [mem_neededList]
    constructor <;> intro hh <;> omega
  · rw [hcf]
    constructor
    · rintro ⟨j, hj, rfl⟩
      rcases List.mem_append.mp hj with hj' | hj'
      · exact Or.inl ⟨j, hj', rfl⟩
      · right
        obtain ⟨cc, hcc, rfl⟩ := List.mem_map.mp hj'
        obtain ⟨hmem, hnl⟩ := List.mem_filter.mp hcc
        exact ⟨hmem, of_decide_eq_true hnl⟩
    · rintro (⟨j, hj, rfl⟩ | ⟨hmem, hnl⟩)
      · exact ⟨j, List.mem_append_left _ hj, rfl⟩
      · refine ⟨mkJob noise c, List.mem_append_right _ ?_, rfl⟩
        exact List.mem_map_of_mem _
          (List.mem_filter.mpr ⟨hmem, decide_eq_true hnl⟩)

/-- Concrete witness for the amended C5. -/
theorem c5_load_needed_amended_witness :
    cameraChunkCoord ((5 : ℚ), (70 : ℚ), (5 : ℚ)) ≠ initialWorld.origin ∧
    ((load noise0 ((5 : ℚ), (70 : ℚ), (5 : ℚ)) initialWorld).origin
        = cameraChunkCoord ((5 : ℚ), (70 : ℚ), (5 : ℚ)) ∧
     ((⟨0, 0, 0⟩ : IVec3) ∈ neededList
        (cameraChunkCoord ((5 : ℚ), (70 : ℚ), (5 : ℚ)))
        (initialWorld.view : Int) ↔
       (-(initialWorld.view : Int) ≤
          (⟨0, 0, 0⟩ : IVec3).x - (cameraChunkCoord ((5 : ℚ), (70 : ℚ), (5 : ℚ))).x ∧
        (⟨0, 0, 0⟩ : IVec3).x - (cameraChunkCoord ((5 : ℚ), (70 : ℚ), (5 : ℚ))).x
          ≤ (initialWorld.view : Int) ∧
        (cameraChunkCoord ((5 : ℚ), (70 : ℚ), (5 : ℚ))).y ≤ (⟨0, 0, 0⟩ : IVec3).y ∧
        (⟨0, 0, 0⟩ : IVec3).y ≤ (cameraChunkCoord ((5 : ℚ), (70 : ℚ), (5 : ℚ))).y + 2 ∧
        -(initialWorld.view : Int) ≤
          (⟨0, 0, 0⟩ : IVec3).z - (cameraChunkCoord ((5 : ℚ), (70 : ℚ), (5 : ℚ))).z ∧
        (⟨0, 0, 0⟩ : IVec3).z - (cameraChunkCoord ((5 : ℚ), (70 : ℚ), (5 : ℚ))).z
          ≤ (initialWorld.view : Int))) ∧
     ((∃ j ∈ (load noise0 ((5 : ℚ), (70 : ℚ), (5 : ℚ)) initialWorld).chunk_futures,
          j.coord = (⟨0, 0, 0⟩ : IVec3)) ↔
       ((∃ j ∈ initialWorld.chunk_futures, j.coord = (⟨0, 0, 0⟩ : IVec3)) ∨
        ((⟨0, 0, 0⟩ : IVec3) ∈ neededList
            (cameraChunkCoord ((5 : ℚ), (70 : ℚ), (5 : ℚ)))
            (initialWorld.view : Int) ∧
         (⟨0, 0, 0⟩ : IVec3) ∉ initialWorld.loaded)))) :=
  ⟨by decide,
   c5_load_needed_amended noise0 ((5 : ℚ), (70 : ℚ), (5 : ℚ)) initialWorld
     (by decide) ⟨0, 0, 0⟩⟩

/-- The value `floor (q / 64)` agrees with truncating division for `0 ≤ q`. -/
theorem trunc_div_eq_floor (q : ℚ) (hq : 0 ≤ q) :
    (f32AsI32 q).tdiv 64 = Int.floor (q / 64) := by
  have hnum : 0 ≤ q.num := Rat.num_nonneg.mpr hq
  have h1 : f32AsI32 q = Int.floor q := by
    unfold f32AsI32
    rw [Int.tdiv_eq_ediv hnum (Int.ofNat_zero_le q.den), Rat.floor_def]
  rw [h1]
  have hfl : (0 : Int) ≤ ⌊q⌋ := Int.floor_nonneg.mpr hq
  rw [Int.tdiv_eq_ediv hfl (by norm_num)]
  rw [show (64 : Int) = ((64 : Nat) : Int) from rfl,
    ← Rat.floor_intCast_div_natCast ⌊q⌋ 64]
  apply le_antisymm
  · apply Int.floor_le_floor
    push_cast
    gcongr
    exact Int.floor_le q
  · rw [Int.le_floor]
    have h3 : (⌊q / 64⌋ : ℚ) ≤ q / 64 := Int.floor_le _
    have h2 : ((64 * ⌊q / 64⌋ : Int) : ℚ) ≤ q := by
      push_cast
      linarith
    have h4 : (64 * ⌊q / 64⌋ : Int) ≤ ⌊q⌋ := Int.le_floor.mpr h2
    rw [le_div_iff₀ (by norm_num : (0 : ℚ) < ((64 : Nat) : ℚ))]
    calc ((⌊q / 64⌋ : Int) : ℚ) * ((64 : Nat) : ℚ)
        = ((64 * ⌊q / 64⌋ : Int) : ℚ) := by push_cast; ring
      _ ≤ ((⌊q⌋ : Int) : ℚ) := by exact_mod_cast h4

/-- Counterexample to claim C6: at camera world position x = −65 the
code computes chunk coordinate −1 (truncation toward zero, twice),
whereas `floor(−65 / 64) = −2`. -/
theorem c6_floor_counterexample :
    cameraChunkCoord ((-65 : ℚ), (0 : ℚ), (0 : ℚ)) = ⟨-1, 0, 0⟩ ∧
    Int.floor ((-65 : ℚ) / 64) = -2 ∧
    (cameraChunkCoord ((-65 : ℚ), (0 : ℚ), (0 : ℚ))).x
      ≠ Int.floor ((-65 : ℚ) / 64) := by
  refine ⟨by decide, by norm_num [Int.floor_eq_iff], ?_⟩
  rw [show cameraChunkCoord ((-65 : ℚ), (0 : ℚ), (0 : ℚ)) = ⟨-1, 0, 0⟩
      from by decide,
    show Int.floor ((-65 : ℚ) / 64) = -2 from by norm_num [Int.floor_eq_iff]]
  decide

/-- Claim C6 (amended): `load` computes the viewer chunk coordinate by
truncating the world position toward zero and dividing by 64 with
truncation toward zero — which agrees with `floor(position / 64)`
per axis whenever the position component is nonnegative — and when this
coordinate equals the stored origin the tick performs no streaming work
(the whole world state is unchanged). -/
theorem c6_load_noop_amended (noise : Int → Int → Int → ℚ)
    (cam : ℚ × ℚ × ℚ) (w : WorldState) :
    (0 ≤ cam.1 → (cameraChunkCoord cam).x = Int.floor (cam.1 / 64)) ∧
    (0 ≤ cam.2.1 → (cameraChunkCoord cam).y = Int.floor (cam.2.1 / 64)) ∧
    (0 ≤ cam.2.2 → (cameraChunkCoord cam).z = Int.floor (cam.2.2 / 64)) ∧
    (cameraChunkCoord cam = w.origin → load noise cam w = w) := by
  refine ⟨fun h => trunc_div_eq_floor cam.1 h,
    fun h => trunc_div_eq_floor cam.2.1 h,
    fun h => trunc_div_eq_floor cam.2.2 h,
    fun h => ?_⟩
  simp only [load]
  rw [if_pos h]

/-- Concrete witness for C1. -/
theorem c1_cull_faces_iff_witness :
    inBounds ⟨0, 0, 0⟩ ∧
    (Nat.testBit ((internal_cull_faces Chunk.new).cullAt ⟨0, 0, 0⟩)
        ((1 : Fin 6) : Nat) = true ↔
      ((0 ≤ ((⟨0, 0, 0⟩ : UVec3).asIVec3 + dirNormal 1).x ∧
        ((⟨0, 0, 0⟩ : UVec3).asIVec3 + dirNormal 1).x < 64 ∧
        0 ≤ ((⟨0, 0, 0⟩ : UVec3).asIVec3 + dirNormal 1).y ∧
        ((⟨0, 0, 0⟩ : UVec3).asIVec3 + dirNormal 1).y < 64 ∧
        0 ≤ ((⟨0, 0, 0⟩ : UVec3).asIVec3 + dirNormal 1).z ∧
        ((⟨0, 0, 0⟩ : UVec3).asIVec3 + dirNormal 1).z < 64) ∧
       Chunk.new.get_block
         ⟨((⟨0, 0, 0⟩ : UVec3).asIVec3 + dirNormal 1).x.toNat,
          ((⟨0, 0, 0⟩ : UVec3).asIVec3 + dirNormal 1).y.toNat,
          ((⟨0, 0, 0⟩ : UVec3).asIVec3 + dirNormal 1).z.toNat⟩
         = some Block.Air)) :=
  ⟨by decide, c1_cull_faces_iff Chunk.new ⟨0, 0, 0⟩ (by decide) 1⟩

/-- Concrete witness for C3. -/
theorem c3_ao_factor_witness :
    inBounds ⟨0, 0, 0⟩ ∧
    Vec4Q.comp ((internal_ao Chunk.new).aoAt ⟨0, 0, 0⟩ 0) 0 =
      1 - (occupancy Chunk.new ((⟨0, 0, 0⟩ : UVec3).asIVec3 + dirNormal 0
              + IVec3.smul (cornerSign1 0) (aoD1 0))
           + occupancy Chunk.new ((⟨0, 0, 0⟩ : UVec3).asIVec3 + dirNormal 0
              + IVec3.smul (cornerSign2 0) (aoD2 0))
           + max (occupancy Chunk.new ((⟨0, 0, 0⟩ : UVec3).asIVec3 + dirNormal 0
                    + IVec3.smul (cornerSign1 0) (aoD1 0)
                    + IVec3.smul (cornerSign2 0) (aoD2 0)))
               (occupancy Chunk.new ((⟨0, 0, 0⟩ : UVec3).asIVec3 + dirNormal 0
                  + IVec3.smul (cornerSign1 0) (aoD1 0))
                * occupancy Chunk.new ((⟨0, 0, 0⟩ : UVec3).asIVec3 + dirNormal 0
                  + IVec3.smul (cornerSign2 0) (aoD2 0)))) / 3 :=
  ⟨by decide, c3_ao_factor Chunk.new ⟨0, 0, 0⟩ (by decide) 0 0⟩

/-- Concrete witness for the amended C6. -/
theorem c6_load_noop_amended_witness :
    (0 : ℚ) ≤ 0 ∧
    (cameraChunkCoord ((0 : ℚ), (0 : ℚ), (0 : ℚ))).x = Int.floor ((0 : ℚ) / 64) ∧
    cameraChunkCoord ((0 : ℚ), (0 : ℚ), (0 : ℚ)) = world0.origin ∧
    load noise0 ((0 : ℚ), (0 : ℚ), (0 : ℚ)) world0 = world0 :=
  ⟨le_refl 0,
   (c6_load_noop_amended noise0 ((0 : ℚ), (0 : ℚ), (0 : ℚ)) world0).1 (le_refl 0),
   by decide,
   (c6_load_noop_amended noise0 ((0 : ℚ), (0 : ℚ), (0 : ℚ)) world0).2.2.2
     (by decide)⟩

end CityBuilder
